import Mathlib

/-!
# Verification of the video-catalog-browser scanning / asset pipeline

A shallow embedding, in Lean 4, of the algorithmic core of the
`video-catalog-browser` repository (TypeScript): the sprite-sheet sizing
algorithm, frame-rate parsing, file fingerprinting, the directory walker,
the per-file scan unit with its skip/failure policy, the persistent video
store operations (`generateId`, `insertVideo`, thumbnail/sprite/proxy
updates), and the proxy-generation queue worker.

External effects (filesystem reads, `ffprobe`/`ffmpeg` subprocesses, SQLite)
are modelled explicitly: fallible external calls become `Except` values
supplied by an environment record, the SQLite tables become lists of row
structures with the same columns, and JavaScript numbers are modelled as
exact rationals (`ℚ`), with `NaN` as `Option.none` where it can arise.
JavaScript 32-bit integer wrap-around is explicit (`% 2 ^ 32`).
-/

namespace VCB

/-! ## ffmpeg.ts : `generateSpriteSheet` — sprite layout computation

The source computes, from the video duration (seconds, a JS float, modelled
as `ℚ`), a frames-per-second rate `fps`, a column count and a row count by a
four-tier `if` chain, then
`totalFrames = min(Math.ceil(duration * fps), columns * rows)` and
`interval = duration / totalFrames`.  Tile size is fixed at 160×90. -/

structure SpriteConfig where
  width : ℚ
  height : ℚ
  columns : ℤ
  rows : ℤ
  interval : ℚ
  totalFrames : ℤ
  deriving DecidableEq, Repr

/-- The `fps` chosen by the tier chain in `generateSpriteSheet`. -/
def spriteFps (duration : ℚ) : ℚ :=
  if duration ≤ 60 then 1
  else if duration ≤ 300 then 1 / 3
  else if duration ≤ 1800 then 1 / 12
  else 1 / 30

/-- The `columns` chosen by the tier chain in `generateSpriteSheet`. -/
def spriteColumns (duration : ℚ) : ℤ :=
  if duration ≤ 60 then 10
  else if duration ≤ 300 then 10
  else if duration ≤ 1800 then 15
  else 20

/-- The `rows` chosen by the tier chain in `generateSpriteSheet`
(`Math.ceil(Math.min(duration, 60) / columns)` in the first tier, with
`columns = 10` there; `10` in every other tier). -/
def spriteRows (duration : ℚ) : ℤ :=
  if duration ≤ 60 then ⌈min duration 60 / 10⌉
  else if duration ≤ 300 then 10
  else if duration ≤ 1800 then 10
  else 10

/-- `totalFrames = Math.min(Math.ceil(duration * fps), columns * rows)`. -/
def spriteTotalFrames (duration : ℚ) : ℤ :=
  min ⌈duration * spriteFps duration⌉ (spriteColumns duration * spriteRows duration)

/-- `interval = duration / totalFrames` (the recomputed, reported interval). -/
def spriteInterval (duration : ℚ) : ℚ :=
  duration / (spriteTotalFrames duration : ℚ)

/-- The `SpriteConfig` resolved by `generateSpriteSheet` for a given duration
(the value delivered on successful ffmpeg exit; `thumbWidth = 160`,
`thumbHeight = 90`). -/
def generateSpriteSheetConfig (duration : ℚ) : SpriteConfig :=
  { width := 160
    height := 90
    columns := spriteColumns duration
    rows := spriteRows duration
    interval := spriteInterval duration
    totalFrames := spriteTotalFrames duration }

/-- The nominal seconds-per-frame of the tier table: the reciprocal of the
tier's `fps` (1, 3, 12 or 30 seconds). -/
def spriteNominalInterval (duration : ℚ) : ℚ := 1 / spriteFps duration

/-! ## ffmpeg.ts : `parseFrameRate`

Strings are handled as `List Char`; a JS number is `Option ℚ` with `none`
playing the role of `NaN`.  `Number(s)` and `parseFloat(s)` are modelled on
the grammar actually reachable from ffprobe frame-rate strings: optional
sign followed by a decimal literal (no exponent, hex, `Infinity` or
surrounding whitespace). -/

/-- Decimal value of an all-digit character list (the value `Number` gives
such a string; `natOfDigits [] = 0`, matching `Number('') === 0`). -/
def natOfDigits (cs : List Char) : ℕ :=
  cs.foldl (fun n c => 10 * n + (c.toNat - 48)) 0

/-- `List.splitOn` for one separator character, mirroring JS
`String.prototype.split(sep)`. -/
def splitOnChar (sep : Char) : List Char → List (List Char)
  | [] => [[]]
  | c :: cs =>
    if c = sep then [] :: splitOnChar sep cs
    else
      match splitOnChar sep cs with
      | [] => [[c]]
      | p :: ps => (c :: p) :: ps

/-- Unsigned part of JS `Number`: digits with at most one `'.'`, at least one
digit overall; the whole string must be consumed. -/
def jsNumberUnsigned (cs : List Char) : Option ℚ :=
  match splitOnChar '.' cs with
  | [intPart] =>
    if intPart.all (·.isDigit) ∧ intPart ≠ [] then some ((natOfDigits intPart : ℚ)) else none
  | [intPart, fracPart] =>
    if intPart.all (·.isDigit) ∧ fracPart.all (·.isDigit) ∧ (intPart ≠ [] ∨ fracPart ≠ []) then
      some ((natOfDigits intPart : ℚ) + (natOfDigits fracPart : ℚ) / 10 ^ fracPart.length)
    else none
  | _ => none

/-- JS `Number(s)` on sign + decimal literals; `Number('') === 0`; `none`
is `NaN`. -/
def jsNumber (cs : List Char) : Option ℚ :=
  match cs with
  | [] => some 0
  | c :: rest =>
    if c = '-' then (jsNumberUnsigned rest).map (fun q => -q)
    else if c = '+' then jsNumberUnsigned rest
    else jsNumberUnsigned cs

/-- Unsigned part of JS `parseFloat`: the longest `digits [. digits]` prefix,
`NaN` if it is empty; trailing garbage is ignored. -/
def parseFloatMag (cs : List Char) : Option ℚ :=
  let ds1 := cs.takeWhile (·.isDigit)
  let rest := cs.drop ds1.length
  let ds2 :=
    match rest with
    | '.' :: r => r.takeWhile (·.isDigit)
    | _ => []
  if ds1 = [] ∧ ds2 = [] then none
  else some ((natOfDigits ds1 : ℚ) + (natOfDigits ds2 : ℚ) / 10 ^ ds2.length)

/-- JS `parseFloat(s)` on sign + decimal-prefix literals; `none` is `NaN`. -/
def parseFloatJS (cs : List Char) : Option ℚ :=
  match cs with
  | [] => none
  | c :: rest =>
    if c = '-' then (parseFloatMag rest).map (fun q => -q)
    else if c = '+' then parseFloatMag rest
    else parseFloatMag cs

/-- JS truthiness of a number value: falsy iff `0` or `NaN`. -/
def jsTruthy (v : Option ℚ) : Bool :=
  match v with
  | none => false
  | some q => q ≠ 0

/-- JS division on number values.  `NaN` propagates; `parseFrameRate` only
divides under a truthiness guard on the denominator, so the division-by-zero
branch (JS `±Infinity`) is unreachable there and is mapped to `none` to keep
the function total. -/
def jsDiv (a b : Option ℚ) : Option ℚ :=
  match a, b with
  | some x, some y => if y = 0 then none else some (x / y)
  | _, _ => none

/-- Element `i` of the array produced by `split`, as a JS number
(`Number(undefined)` is `NaN`). -/
def jsNumberAt (parts : List (List Char)) (i : ℕ) : Option ℚ :=
  match parts.get? i with
  | none => none
  | some p => jsNumber p

/-- `parseFrameRate` from ffmpeg.ts: `undefined` or `''` gives 30; a string
containing `'/'` is split and destructured into `[num, den]`, giving
`Number(num) / Number(den)` when `den` is truthy and 30 otherwise; any other
string gives `parseFloat(s) || 30`. -/
def parseFrameRate (frameRate : Option (List Char)) : Option ℚ :=
  match frameRate with
  | none => some 30
  | some cs =>
    if cs = [] then some 30
    else if '/' ∈ cs then
      let parts := splitOnChar '/' cs
      let num := jsNumberAt parts 0
      let den := jsNumberAt parts 1
      if jsTruthy den then jsDiv num den else some 30
    else if jsTruthy (parseFloatJS cs) then parseFloatJS cs else some 30

/-! ## scanner.ts : `getFileFingerprint`

`getFileFingerprint` stats the file, reads the first `min(fileSize, 65536)`
bytes, and MD5-digests the concatenation of that prefix, the decimal string
of the file size, and the ISO-8601 modification timestamp.  The digest
itself is an external primitive, so it is a parameter of the embedding; the
byte stream fed to it (`fingerprintInput`) is modelled exactly.  A file is
its byte content plus its mtime string (`stats.size` is the content
length, and `fd.read` of 65536 bytes at offset 0 returns
`bytesRead = min(size, 65536)` bytes for a regular file). -/

/-- Little-endian base-10 digits, computed with explicit fuel so that it
reduces in the kernel; `digitsFuel n n = Nat.digits 10 n` (proved below). -/
def digitsFuel : ℕ → ℕ → List ℕ
  | _, 0 => []
  | 0, _ + 1 => []
  | fuel + 1, n + 1 => (n + 1) % 10 :: digitsFuel fuel ((n + 1) / 10)

/-- The ASCII bytes of JS `String(n)` for a natural number (most significant
digit first, no leading zeros, `"0"` for zero). -/
def jsNatBytes (n : ℕ) : List ℕ :=
  if n = 0 then [48] else (digitsFuel n n).reverse.map (· + 48)

/-- The code units of a Lean string as naturals (every string digested here
is ASCII, where this agrees with UTF-8). -/
def strBytes (s : String) : List ℕ := s.data.map Char.toNat

/-- A source file as seen by the fingerprinter: its bytes and its
modification timestamp, already rendered by `Date.prototype.toISOString`. -/
structure SourceFile where
  content : List ℕ
  mtimeIso : String
  deriving DecidableEq

/-- The byte stream `getFileFingerprint` feeds to the MD5 digest: the first
`min(size, 65536)` content bytes, then `String(stats.size)`, then
`stats.mtime.toISOString()` (the three `hash.update` calls concatenate). -/
def fingerprintInput (f : SourceFile) : List ℕ :=
  f.content.take 65536 ++ jsNatBytes f.content.length ++ strBytes f.mtimeIso

/-- `getFileFingerprint`, parametrized by the digest function (MD5 with hex
output in the source). -/
def getFileFingerprint {α : Type} (digest : List ℕ → α) (f : SourceFile) : α :=
  digest (fingerprintInput f)

/-! ## db.ts : `generateId` and the `videos` table

SQLite is modelled as a list of row structures with the schema's columns.
`INSERT OR REPLACE` first deletes every row conflicting on the primary key
`id` or on the `UNIQUE file_path` constraint, then inserts the new row with
schema defaults (`0` / `NULL`) for the columns absent from the insert's
column list. -/

/-- JS 32-bit signed integer wrap-around (the effect of `hash & hash` and of
a shift result, i.e. `ToInt32`). -/
def wrap32 (n : ℤ) : ℤ := (n + 2 ^ 31) % 2 ^ 32 - 2 ^ 31

/-- The hash loop of `generateId`: per character,
`hash = ((hash << 5) - hash) + charCode` then `hash = hash & hash`.
`hash << 5` wraps its result to int32; the subtraction and addition are
exact in doubles at these magnitudes, and the final `& ` wraps again.
`charCodeAt` is the UTF-16 code unit, which agrees with the code point for
the BMP characters appearing in file paths. -/
def generateIdHash (filePath : String) : ℤ :=
  filePath.data.foldl (fun hash c => wrap32 (wrap32 (hash * 32) - hash + c.toNat)) 0

/-- A base-36 digit character (0-9 then a-z), as produced by
`Number.prototype.toString(36)`. -/
def base36Char (d : ℕ) : Char :=
  if d < 10 then Char.ofNat (48 + d) else Char.ofNat (87 + d)

/-- Base-36 digit characters of `n`, most significant first, with explicit
fuel so the kernel can evaluate it (`n` itself is enough fuel). -/
def toBase36Aux : ℕ → ℕ → List Char
  | _, 0 => []
  | 0, _ + 1 => []
  | fuel + 1, n + 1 => toBase36Aux fuel ((n + 1) / 36) ++ [base36Char ((n + 1) % 36)]

/-- `n.toString(36)` for a natural number. -/
def toBase36 (n : ℕ) : String :=
  if n = 0 then "0" else String.mk (toBase36Aux n n)

/-- `generateId` from db.ts: fold the path into a 32-bit signed hash, take
`Math.abs`, render base-36. -/
def generateId (filePath : String) : String :=
  toBase36 (generateIdHash filePath).natAbs

/-- A row of the `videos` table (columns of `initializeSchema`). -/
structure VideoRow where
  id : String
  filePath : String
  fileName : String
  fileSize : ℕ
  duration : ℚ
  width : Option ℤ
  height : Option ℤ
  createdAt : String
  directory : String
  hasProxy : Bool
  hasSprite : Bool
  proxyPath : Option String
  spritePath : Option String
  thumbnailPath : Option String
  fileHash : Option String
  fileMtime : Option String
  scannedAt : Option String
  deriving DecidableEq, Repr

/-- The `videos` table. -/
abbrev VideoStore := List VideoRow

/-- `SELECT * FROM videos WHERE id = ?` (at most one row: `id` is the
primary key). -/
def getVideoById (s : VideoStore) (id : String) : Option VideoRow :=
  s.find? (fun r => r.id == id)

/-- `SELECT * FROM videos WHERE file_path = ?` (`file_path` is UNIQUE). -/
def getVideoByPath (s : VideoStore) (filePath : String) : Option VideoRow :=
  s.find? (fun r => r.filePath == filePath)

/-- `VideoInsertData` from db.ts (the caller-supplied columns of
`insertVideo`). -/
structure VideoInsertData where
  filePath : String
  fileName : String
  fileSize : ℕ
  duration : ℚ
  width : Option ℤ
  height : Option ℤ
  createdAt : String
  directory : String
  fileHash : Option String
  fileMtime : Option String
  deriving DecidableEq, Repr

/-- `insertVideo`: `INSERT OR REPLACE INTO videos (id, file_path, …,
file_hash, file_mtime, scanned_at)` keyed by `generateId(filePath)`.  The
asset columns (`has_proxy`, `has_sprite`, `proxy_path`, `sprite_path`,
`thumbnail_path`) are not in the column list, so the replacing row carries
their schema defaults.  Returns the stored row (`getVideoById(id)!`). -/
def insertVideo (s : VideoStore) (v : VideoInsertData) (scannedAt : String) :
    VideoStore × VideoRow :=
  let id := generateId v.filePath
  let row : VideoRow :=
    { id := id, filePath := v.filePath, fileName := v.fileName, fileSize := v.fileSize,
      duration := v.duration, width := v.width, height := v.height,
      createdAt := v.createdAt, directory := v.directory,
      hasProxy := false, hasSprite := false,
      proxyPath := none, spritePath := none, thumbnailPath := none,
      fileHash := v.fileHash, fileMtime := v.fileMtime, scannedAt := some scannedAt }
  (row :: s.filter (fun r => !(r.id == id || r.filePath == v.filePath)), row)

/-- `updateVideoThumbnailAndSprite`: `UPDATE videos SET thumbnail_path = ?,
sprite_path = ?, has_sprite = 1 WHERE id = ?`. -/
def updateVideoThumbnailAndSprite (s : VideoStore) (id : String)
    (thumbnailPath spritePath : String) : VideoStore :=
  s.map (fun r =>
    if r.id = id then
      { r with thumbnailPath := some thumbnailPath, spritePath := some spritePath,
               hasSprite := true }
    else r)

/-- `updateVideoProxy`: `UPDATE videos SET has_proxy = 1, has_sprite = 1,
proxy_path = ?, sprite_path = ?, thumbnail_path = ? WHERE id = ?`. -/
def updateVideoProxy (s : VideoStore) (id : String)
    (proxyPath spritePath thumbnailPath : String) : VideoStore :=
  s.map (fun r =>
    if r.id = id then
      { r with hasProxy := true, hasSprite := true, proxyPath := some proxyPath,
               spritePath := some spritePath, thumbnailPath := some thumbnailPath }
    else r)

/-! ## scanner.ts : `processVideoFile` and the scan's process phase

One processing unit touches the outside world through: the fingerprint read,
`fs.stat`, the ffprobe metadata probe, and thumbnail + sprite generation.
Each fallible call's outcome is supplied by a `FileEnv`; the unit itself
becomes a total function returning the source's
`{ video, skipped }` result, the updated store, and the list of external
invocations it performed (for the zero-invocation re-scan property). -/

/-- `FFmpegMetadata` from types.ts (`parseFloat(format.duration) || 0` etc.
already applied by `getVideoMetadata`). -/
structure FFmpegMetadata where
  duration : ℚ
  width : ℤ
  height : ℤ
  codec : String
  frameRate : Option ℚ
  bitRate : ℤ
  deriving DecidableEq, Repr

/-- The fields of `fs.stat` the scanner reads. -/
structure FileStat where
  size : ℕ
  mtimeIso : String
  birthtimeIso : String
  deriving DecidableEq, Repr

deriving instance DecidableEq for Except

/-- Outcomes of one unit's external operations, plus the wall-clock string
used for `scanned_at`. -/
structure FileEnv where
  fingerprint : Except String String
  stat : Except String FileStat
  metadata : Except String FFmpegMetadata
  thumbnail : Except String String
  sprite : Except String String
  now : String
  deriving DecidableEq, Repr

/-- The external invocations a unit can perform. -/
inductive ScanAction where
  | probe
  | insert
  | generateThumbSprite
  | updateThumbSprite
  deriving DecidableEq, Repr

/-- The resolution of one processing unit. -/
structure UnitResult where
  video : Option VideoRow
  skipped : Bool
  store : VideoStore
  actions : List ScanAction
  deriving DecidableEq, Repr

/-- `path.basename`: the last `'/'`-separated component (scanner paths are
slash-joined with no trailing slash). -/
def basename (p : String) : String :=
  String.mk ((splitOnChar '/' p.data).getLastD [])

/-- `path.dirname`: everything before the last component. -/
def dirname (p : String) : String :=
  String.mk (List.intercalate ['/'] (splitOnChar '/' p.data).dropLast)

/-- The tail of `processVideoFile` past the fingerprint-skip check: probe
metadata (failure caught by the outer catch ⇒ `{video: null, skipped:
false}`), insert the record, then — when thumbnails are requested and the
duration is positive — run thumbnail and sprite generation
(`Promise.all`: both invoked, first rejection wins and is caught by the
inner catch, skipping only the thumbnail/sprite path update). -/
def processVideoFileCont (env : FileEnv) (store : VideoStore) (filePath : String)
    (generateThumbs : Bool) (fingerprint : String) (stats : FileStat) : UnitResult :=
  match env.metadata with
  | .error _ => ⟨none, false, store, [.probe]⟩
  | .ok metadata =>
    let videoData : VideoInsertData :=
      { filePath := filePath, fileName := basename filePath, fileSize := stats.size,
        duration := metadata.duration, width := some metadata.width,
        height := some metadata.height, createdAt := stats.birthtimeIso,
        directory := dirname filePath, fileHash := some fingerprint,
        fileMtime := some stats.mtimeIso }
    let inserted := insertVideo store videoData env.now
    if generateThumbs ∧ 0 < metadata.duration then
      match env.thumbnail, env.sprite with
      | .ok thumbnailPath, .ok spritePath =>
        ⟨some inserted.2, false,
          updateVideoThumbnailAndSprite inserted.1 inserted.2.id thumbnailPath spritePath,
          [.probe, .insert, .generateThumbSprite, .updateThumbSprite]⟩
      | _, _ =>
        ⟨some inserted.2, false, inserted.1, [.probe, .insert, .generateThumbSprite]⟩
    else
      ⟨some inserted.2, false, inserted.1, [.probe, .insert]⟩

/-- `processVideoFile`: fingerprint and stat the file (failure caught by the
outer catch ⇒ `{video: null, skipped: false}` with the store untouched),
look up the record by path, resolve as skipped when the stored fingerprint
matches, otherwise continue with probe / insert / generation. -/
def processVideoFile (env : FileEnv) (store : VideoStore) (filePath : String)
    (generateThumbs : Bool) : UnitResult :=
  match env.fingerprint with
  | .error _ => ⟨none, false, store, []⟩
  | .ok fingerprint =>
    match env.stat with
    | .error _ => ⟨none, false, store, []⟩
    | .ok stats =>
      match getVideoByPath store filePath with
      | some existing =>
        if existing.fileHash = some fingerprint then
          ⟨some existing, true, store, []⟩
        else
          processVideoFileCont env store filePath generateThumbs fingerprint stats
      | none => processVideoFileCont env store filePath generateThumbs fingerprint stats

/-- The running counters of the scan's process phase. -/
structure ScanCounts where
  found : ℕ
  processed : ℕ
  skipped : ℕ
  deriving DecidableEq, Repr

/-- One step of the process phase: run the unit, then apply the source's
counter update (`if (result.video) { videosFound++; result.skipped ?
videosSkipped++ : videosProcessed++ }`), accumulating the unit's external
invocations. -/
def processPhaseStep (acc : VideoStore × ScanCounts × List ScanAction)
    (unit : String × FileEnv) : VideoStore × ScanCounts × List ScanAction :=
  let r := processVideoFile unit.2 acc.1 unit.1 true
  let c := acc.2.1
  let c' :=
    if r.video.isSome then
      if r.skipped then
        { c with found := c.found + 1, skipped := c.skipped + 1 }
      else
        { c with found := c.found + 1, processed := c.processed + 1 }
    else c
  (r.store, c', acc.2.2 ++ r.actions)

/-- The process phase of `scanAndProcessDirectory` over the materialized
path list, each path paired with its unit's environment.  The source's
pool (width 4) only interleaves units whose counter updates commute, so the
final store, counts and invocation multiset are those of the sequential
fold. -/
def runProcessPhase (units : List (String × FileEnv)) (store : VideoStore) :
    VideoStore × ScanCounts × List ScanAction :=
  units.foldl processPhaseStep (store, ⟨0, 0, 0⟩, [])

/-- The skip condition of `processVideoFile` holds for a unit: fingerprint
and stat succeed and the store has a record at the path whose stored
fingerprint matches. -/
def UnchangedUnit (store : VideoStore) (u : String × FileEnv) : Prop :=
  ∃ fp st ex, u.2.fingerprint = .ok fp ∧ u.2.stat = .ok st ∧
    getVideoByPath store u.1 = some ex ∧ ex.fileHash = some fp

/-- No stored record at `filePath` carries fingerprint `fp` (the unit will
not resolve as skipped). -/
def NotSkippable (store : VideoStore) (filePath : String) (fp : String) : Prop :=
  ∀ ex, getVideoByPath store filePath = some ex → ex.fileHash ≠ some fp

/-- A concrete unit environment whose probe succeeds but whose sprite
generation fails. -/
def genFailEnv : FileEnv :=
  { fingerprint := .ok "fp", stat := .ok ⟨100, "M", "B"⟩,
    metadata := .ok ⟨10, 1920, 1080, "h264", some 30, 1000⟩,
    thumbnail := .ok "thumb.jpg", sprite := .error "boom", now := "T" }

/-- Concrete insert data for the colliding path `"Aa"`. -/
def collisionDataAa : VideoInsertData :=
  { filePath := "Aa", fileName := "Aa", fileSize := 1, duration := 1, width := none,
    height := none, createdAt := "C", directory := ".", fileHash := some "h1",
    fileMtime := some "M" }

/-- Concrete insert data for the colliding path `"BB"`. -/
def collisionDataBB : VideoInsertData :=
  { filePath := "BB", fileName := "BB", fileSize := 2, duration := 2, width := none,
    height := none, createdAt := "C", directory := ".", fileHash := some "h2",
    fileMtime := some "M" }

/-- A concrete unit environment where everything succeeds. -/
def genOkEnv : FileEnv :=
  { fingerprint := .ok "fp", stat := .ok ⟨100, "M", "B"⟩,
    metadata := .ok ⟨10, 1920, 1080, "h264", some 30, 1000⟩,
    thumbnail := .ok "t.jpg", sprite := .ok "s.jpg", now := "T" }

/-- A concrete unit environment whose metadata probe fails. -/
def probeFailEnv : FileEnv :=
  { fingerprint := .ok "fp", stat := .ok ⟨100, "M", "B"⟩,
    metadata := .error "ffprobe exited with code 1",
    thumbnail := .ok "t.jpg", sprite := .ok "s.jpg", now := "T" }

/-- A concrete unit environment whose fingerprint read fails outright. -/
def fpReadFailEnv : FileEnv :=
  { fingerprint := .error "EIO", stat := .error "EIO", metadata := .error "EIO",
    thumbnail := .error "EIO", sprite := .error "EIO", now := "T" }

/-- A stored record for `"a.mp4"` that has a generated proxy. -/
def proxyRow : VideoRow :=
  { id := "1i7qhw", filePath := "a.mp4", fileName := "a.mp4", fileSize := 100,
    duration := 10, width := some 1920, height := some 1080, createdAt := "B",
    directory := "", hasProxy := true, hasSprite := true,
    proxyPath := some "proxy.mp4", spritePath := some "s0.jpg",
    thumbnailPath := some "t0.jpg", fileHash := some "old", fileMtime := some "M0",
    scannedAt := some "T0" }

/-- The record re-processing `"a.mp4"` leaves behind: freshly inserted row
(asset columns at their defaults) with thumbnail and sprite re-attached. -/
def c10Row : VideoRow :=
  { id := "1i7qhw", filePath := "a.mp4", fileName := "a.mp4", fileSize := 100,
    duration := 10, width := some 1920, height := some 1080, createdAt := "B",
    directory := "", hasProxy := false, hasSprite := true,
    proxyPath := none, spritePath := some "s.jpg", thumbnailPath := some "t.jpg",
    fileHash := some "fp", fileMtime := some "M", scannedAt := some "T" }

/-- A stored record for `"a.mp4"` whose fingerprint is the one
`unchangedEnv` recomputes. -/
def unchangedRow : VideoRow :=
  { id := "1i7qhw", filePath := "a.mp4", fileName := "a.mp4", fileSize := 100,
    duration := 10, width := none, height := none, createdAt := "C",
    directory := "", hasProxy := false, hasSprite := true,
    proxyPath := none, spritePath := some "s.jpg", thumbnailPath := some "t.jpg",
    fileHash := some "fp", fileMtime := some "M", scannedAt := some "T" }

/-- The unit environment of an unchanged re-scan: the fingerprint matches
`unchangedRow`; probe and generation outcomes are irrelevant (never
consulted). -/
def unchangedEnv : FileEnv :=
  { fingerprint := .ok "fp", stat := .ok ⟨100, "M", "B"⟩,
    metadata := .error "not invoked", thumbnail := .error "not invoked",
    sprite := .error "not invoked", now := "T" }

/-! ## Proxy queue: db.ts queue operations and the proxy route's worker

`created_at` ISO strings compare chronologically; they are modelled as
naturals.  The worker loop (`processQueue` in the proxy route) is a
recursive function over the queue table, with the outcome of each job's
`generateAllProxyAssets` run supplied by a `QueueEnv`. -/

/-- Job status strings of the `proxy_queue` table. -/
inductive JobStatus where
  | queued
  | processing
  | complete
  | error
  deriving DecidableEq, Repr

/-- A row of the `proxy_queue` table. -/
structure ProxyJob where
  id : String
  videoId : String
  status : JobStatus
  progress : ℤ
  createdAt : ℕ
  startedAt : Option String
  completedAt : Option String
  errMsg : Option String
  deriving DecidableEq, Repr

/-- The `proxy_queue` table. -/
abbrev ProxyQueue := List ProxyJob

/-- `SELECT * FROM proxy_queue WHERE status = 'queued' ORDER BY created_at
ASC LIMIT 1`: the earliest-created queued job, list position breaking ties
(standing in for SQLite's unspecified tie order). -/
def getNextQueuedJob (q : ProxyQueue) : Option ProxyJob :=
  (q.filter (fun j => j.status == .queued)).foldl
    (fun acc j =>
      match acc with
      | none => some j
      | some m => if j.createdAt < m.createdAt then some j else some m)
    none

/-- The per-row effect of `updateProxyJobStatus` on the row with the given
id: `processing` sets progress and `started_at`; `complete`/`error` set
progress, `completed_at` and the error text (`error || null`); any other
status sets status and progress only. -/
def updateJobFn (id : String) (status : JobStatus) (progress : ℤ) (err : Option String)
    (now : String) (j : ProxyJob) : ProxyJob :=
  if j.id = id then
    match status with
    | .processing => { j with status := status, progress := progress, startedAt := some now }
    | .complete =>
      { j with status := status, progress := progress, completedAt := some now, errMsg := err }
    | .error =>
      { j with status := status, progress := progress, completedAt := some now, errMsg := err }
    | .queued => { j with status := status, progress := progress }
  else j

/-- `updateProxyJobStatus` as a table operation (`UPDATE … WHERE id = ?`). -/
def updateProxyJobStatus (q : ProxyQueue) (id : String) (status : JobStatus)
    (progress : ℤ) (err : Option String) (now : String) : ProxyQueue :=
  q.map (updateJobFn id status progress err now)

/-- Per-job outcome of `generateAllProxyAssets`
(`(proxyPath, spritePath, thumbnailPath)` on success, the failure detail
`String(error)` otherwise), plus the wall clock. -/
structure QueueEnv where
  gen : String → Except String (String × String × String)
  now : String

/-- One iteration of the worker on claimed job `j`: mark it `processing`
(progress 0), resolve its video (`error "Video not found"` when absent),
run the generation, then on success update the video's asset paths and mark
`complete` (progress 100), on failure mark `error` with the detail.  The
intermediate progress writes issued by the progress callback keep the job
`processing` and are overwritten by the terminal write; they are modelled
separately by `storedProgress` below. -/
def runJob (env : QueueEnv) (videos : VideoStore) (q : ProxyQueue) (j : ProxyJob) :
    VideoStore × ProxyQueue :=
  let q1 := updateProxyJobStatus q j.id .processing 0 none env.now
  match getVideoById videos j.videoId with
  | none => (videos, updateProxyJobStatus q1 j.id .error 0 (some "Video not found") env.now)
  | some v =>
    match env.gen j.id with
    | .ok paths =>
      (updateVideoProxy videos v.id paths.1 paths.2.1 paths.2.2,
        updateProxyJobStatus q1 j.id .complete 100 none env.now)
    | .error e =>
      (videos, updateProxyJobStatus q1 j.id .error 0 (some e) env.now)

/-- Number of queued jobs (the worker's termination measure). -/
def queuedCount (q : ProxyQueue) : ℕ :=
  (q.filter (fun j => j.status == .queued)).length

/-! The next few lemmas justify the worker loop's termination (each claimed
job leaves the `queued` state for good), so they must precede its
definition. -/

lemma updateJobFn_id (id : String) (s : JobStatus) (p : ℤ) (err : Option String)
    (now : String) (j : ProxyJob) : (updateJobFn id s p err now j).id = j.id := by
  unfold updateJobFn
  by_cases hid : j.id = id
  · rw [if_pos hid]; cases s <;> rfl
  · rw [if_neg hid]

lemma updateJobFn_of_ne (id : String) (s : JobStatus) (p : ℤ) (err : Option String)
    (now : String) (j : ProxyJob) (h : j.id ≠ id) : updateJobFn id s p err now j = j := by
  unfold updateJobFn
  rw [if_neg h]

lemma updateJobFn_status_of_eq (id : String) (s : JobStatus) (p : ℤ) (err : Option String)
    (now : String) (j : ProxyJob) (h : j.id = id) :
    (updateJobFn id s p err now j).status = s := by
  unfold updateJobFn
  rw [if_pos h]
  cases s <;> rfl

lemma getNextQueuedJob_pick_mem :
    ∀ (l : List ProxyJob) (acc : Option ProxyJob) (j : ProxyJob),
      l.foldl (fun acc j =>
        match acc with
        | none => some j
        | some m => if j.createdAt < m.createdAt then some j else some m) acc = some j →
      acc = some j ∨ j ∈ l := by
  intro l
  induction l with
  | nil => intro acc j h; exact Or.inl h
  | cons x rest ih =>
    intro acc j h
    rcases ih _ j h with hpick | hmem
    · cases acc with
      | none =>
        simp only at hpick
        cases hpick
        exact Or.inr (List.mem_cons_self x rest)
      | some m =>
        simp only at hpick
        by_cases hlt : x.createdAt < m.createdAt
        · rw [if_pos hlt] at hpick
          cases hpick
          exact Or.inr (List.mem_cons_self x rest)
        · rw [if_neg hlt] at hpick
          exact Or.inl hpick
    · exact Or.inr (List.mem_cons_of_mem x hmem)

lemma getNextQueuedJob_mem_queued {q : ProxyQueue} {j : ProxyJob}
    (h : getNextQueuedJob q = some j) : j ∈ q ∧ j.status = .queued := by
  rcases getNextQueuedJob_pick_mem _ none j h with hacc | hmem
  · cases hacc
  · have hmf := List.mem_filter.mp hmem
    exact ⟨hmf.1, by simpa using hmf.2⟩

lemma queuedCount_lt_of_map (q : ProxyQueue) (f : ProxyJob → ProxyJob)
    (hf : ∀ x ∈ q, (f x).status = .queued → x.status = .queued)
    (witness : ProxyJob) (hw : witness ∈ q) (hq : witness.status = .queued)
    (hfw : (f witness).status ≠ .queued) :
    queuedCount (q.map f) < queuedCount q := by
  obtain ⟨l1, l2, rfl⟩ := List.append_of_mem hw
  have hmono : ∀ l : List ProxyJob, (∀ x ∈ l, (f x).status = .queued → x.status = .queued) →
      (l.map f).countP (fun j => j.status == .queued) ≤
        l.countP (fun j => j.status == .queued) := by
    intro l hl
    rw [List.countP_map]
    refine List.countP_mono_left ?_
    intro a ha hpa
    have := hl a ha (by simpa using hpa)
    simpa using this
  simp only [queuedCount, ← List.countP_eq_length_filter, List.map_append, List.map_cons,
    List.countP_append, List.countP_cons]
  have h1 := hmono l1 (fun x hx => hf x (List.mem_append_left _ hx))
  have h2 := hmono l2 (fun x hx => hf x (List.mem_append_right _ (List.mem_cons_of_mem _ hx)))
  have hwitness : ((f witness).status == JobStatus.queued) = false := by
    simpa using hfw
  have hwit2 : (witness.status == JobStatus.queued) = true := by simpa using hq
  rw [hwitness, hwit2]
  simp only [List.countP_map] at h1 h2 ⊢
  norm_num
  omega

lemma runJob_queue_char (env : QueueEnv) (videos : VideoStore) (q : ProxyQueue)
    (j : ProxyJob) :
    ∃ (s : JobStatus) (pr : ℤ) (err : Option String),
      (s = JobStatus.complete ∨ s = JobStatus.error) ∧
      (runJob env videos q j).2 =
        (q.map (updateJobFn j.id .processing 0 none env.now)).map
          (updateJobFn j.id s pr err env.now) := by
  unfold runJob
  cases getVideoById videos j.videoId with
  | none => exact ⟨.error, 0, some "Video not found", Or.inr rfl, rfl⟩
  | some v =>
    cases env.gen j.id with
    | ok paths => exact ⟨.complete, 100, none, Or.inl rfl, rfl⟩
    | error e => exact ⟨.error, 0, some e, Or.inr rfl, rfl⟩

lemma queuedCount_runJob_lt (env : QueueEnv) (videos : VideoStore) (q : ProxyQueue)
    (j : ProxyJob) (hj : j ∈ q) (hq : j.status = .queued) :
    queuedCount (runJob env videos q j).2 < queuedCount q := by
  obtain ⟨s, pr, err, hsor, heq⟩ := runJob_queue_char env videos q j
  have hs : s ≠ JobStatus.queued := by rcases hsor with h | h <;> subst h <;> simp
  rw [heq, List.map_map]
  refine queuedCount_lt_of_map q _ ?_ j hj hq ?_
  · intro x hx hstat
    simp only [Function.comp_apply] at hstat
    by_cases hid : x.id = j.id
    · exfalso
      have hid1 : (updateJobFn j.id JobStatus.processing 0 none env.now x).id = j.id := by
        rw [updateJobFn_id]; exact hid
      have hst2 := updateJobFn_status_of_eq j.id s pr err env.now _ hid1
      exact hs (hst2.symm.trans hstat)
    · rw [updateJobFn_of_ne _ _ _ _ _ _ (by rw [updateJobFn_id]; exact hid),
        updateJobFn_of_ne _ _ _ _ _ _ hid] at hstat
      exact hstat
  · simp only [Function.comp_apply]
    have hst2 := updateJobFn_status_of_eq j.id s pr err env.now
      (updateJobFn j.id JobStatus.processing 0 none env.now j) (by rw [updateJobFn_id])
    rw [hst2]
    exact hs

/-- The worker loop of the proxy route's `processQueue`: while a queued job
exists, claim and run it; each iteration moves the claimed id out of the
`queued` state, so the loop terminates.  When no job is queued the loop
exits immediately. -/
def processQueue (env : QueueEnv) (videos : VideoStore) (q : ProxyQueue) :
    VideoStore × ProxyQueue :=
  match hj : getNextQueuedJob q with
  | none => (videos, q)
  | some j => processQueue env (runJob env videos q j).1 (runJob env videos q j).2
termination_by queuedCount q
decreasing_by
  have hm := getNextQueuedJob_mem_queued hj
  exact queuedCount_runJob_lt env videos q j hm.1 hm.2

/-! ## Proxy route: per-job progress aggregation

Inside one job, `generateAllProxyAssets` reports `(stage, progress)`
callbacks; the route folds them through three trackers and stores
`Math.round` of the weighted sum after every event. -/

/-- The three mutable trackers of the route's progress callback. -/
structure ProgressState where
  thumbnailDone : Bool
  spriteDone : Bool
  proxyProgress : ℚ
  deriving DecidableEq, Repr

/-- Tracker state at the start of a job. -/
def initProgress : ProgressState := ⟨false, false, 0⟩

/-- One progress callback `(stage, progress)`: `'thumbnail'` at 100 and
`'sprite'` at 100 set their flags; `'proxy'` records the percentage; any
other event (such as the initial `('all', 0)`) changes nothing. -/
def applyStageEvent (st : ProgressState) (ev : String × ℚ) : ProgressState :=
  if ev.1 = "thumbnail" ∧ ev.2 = 100 then { st with thumbnailDone := true }
  else if ev.1 = "sprite" ∧ ev.2 = 100 then { st with spriteDone := true }
  else if ev.1 = "proxy" then { st with proxyProgress := ev.2 }
  else st

/-- The weighted overall progress: thumbnail 5%, sprite 15%, proxy 80%. -/
def overallProgress (st : ProgressState) : ℚ :=
  (if st.thumbnailDone then 5 else 0) + (if st.spriteDone then 15 else 0) +
    st.proxyProgress * (8 / 10)

/-- JS `Math.round`: half-up (toward `+∞`). -/
def jsRound (x : ℚ) : ℤ := ⌊x + 1 / 2⌋

/-- The proxy percentages among an event sequence, in order. -/
def proxyValues (events : List (String × ℚ)) : List ℚ :=
  events.filterMap (fun ev => if ev.1 = "proxy" then some ev.2 else none)

/-- The progress values stored in the job row by the callback, one per
event: `Math.round(overallProgress)` after each event. -/
def storedProgress (events : List (String × ℚ)) : List ℤ :=
  ((events.scanl applyStageEvent initProgress).drop 1).map
    (fun st => jsRound (overallProgress st))

/-- How one table row may evolve across a worker run: identity, video key
and creation time are preserved, and the status is either untouched or has
been driven to a terminal state. -/
def JobEvolves (a b : ProxyJob) : Prop :=
  b.id = a.id ∧ b.videoId = a.videoId ∧ b.createdAt = a.createdAt ∧
    (b.status = a.status ∨ b.status = .complete ∨ b.status = .error)

/-- Demo job created first (`created_at = 1`). -/
def jobA : ProxyJob :=
  { id := "ja", videoId := "va", status := .queued, progress := 0, createdAt := 1,
    startedAt := none, completedAt := none, errMsg := none }

/-- Demo job created second (`created_at = 2`). -/
def jobB : ProxyJob :=
  { id := "jb", videoId := "vb", status := .queued, progress := 0, createdAt := 2,
    startedAt := none, completedAt := none, errMsg := none }

/-- Video record for `jobA`. -/
def qVideoA : VideoRow :=
  { id := "va", filePath := "A.mp4", fileName := "A.mp4", fileSize := 1, duration := 10,
    width := none, height := none, createdAt := "C", directory := "", hasProxy := false,
    hasSprite := false, proxyPath := none, spritePath := none, thumbnailPath := none,
    fileHash := none, fileMtime := none, scannedAt := none }

/-- Video record for `jobB`. -/
def qVideoB : VideoRow :=
  { id := "vb", filePath := "B.mp4", fileName := "B.mp4", fileSize := 2, duration := 20,
    width := none, height := none, createdAt := "C", directory := "", hasProxy := false,
    hasSprite := false, proxyPath := none, spritePath := none, thumbnailPath := none,
    fileHash := none, fileMtime := none, scannedAt := none }

/-- Demo worker environment: generation fails for `jobA` and succeeds for
`jobB`. -/
def queueDemoEnv : QueueEnv :=
  { gen := fun id => if id = "ja" then .error "boom" else .ok ("p.mp4", "s.jpg", "t.jpg"),
    now := "NOW" }

/-- A demo progress-event sequence of one job: the initial `('all', 0)`,
thumbnail done, proxy at 50, sprite done, proxy at 100. -/
def demoEvents : List (String × ℚ) :=
  [("all", 0), ("thumbnail", 100), ("proxy", 50), ("sprite", 100), ("proxy", 100)]

/-! ## scanner.ts : `shouldSkipPath`, `isVideoFile` and `scanDirectory`

The filesystem is a rose tree; `scanDirectory`'s recursive async generator
becomes a recursive function from a directory's entry list to the list of
yielded file paths (as component lists relative to the root, in yield
order).  Per-directory read errors make the generator skip a subtree; the
pure tree model has no read failures, matching the claim's scope. -/

/-- The fixed video-extension allow-list. -/
def VIDEO_EXTENSIONS : List String :=
  [".mov", ".mp4", ".m4v", ".avi", ".mkv", ".webm"]

/-- The `'.'`-suffix starting at the last `'.'` of the list, if any. -/
def extAfterLastDot : List Char → Option (List Char)
  | [] => none
  | c :: cs =>
    match extAfterLastDot cs with
    | some e => some e
    | none => if c = '.' then some ('.' :: cs) else none

/-- `path.extname(name)`: the substring from the last `'.'`; empty when
there is no dot or the only dot is leading (`".bashrc"`).  (Node returns
`""` for names consisting solely of dots; this model returns `"."` there —
the difference cannot affect `isVideoFile`, since `"."` is not in the
allow-list, and such names are hidden and skipped anyway.) -/
def extname (name : String) : String :=
  match name.data with
  | [] => ""
  | _ :: cs =>
    match extAfterLastDot cs with
    | some e => String.mk e
    | none => ""

/-- `String.prototype.toLowerCase` on the ASCII strings extensions are
(character-wise lowering). -/
def lowerAscii (s : String) : String := String.mk (s.data.map Char.toLower)

/-- `isVideoFile`: case-insensitive extension membership in the allow-list
(`path.extname(filePath).toLowerCase()`). -/
def isVideoFile (filePath : String) : Bool :=
  lowerAscii (extname filePath) ∈ VIDEO_EXTENSIONS

/-- `name.startsWith('.')`: the first character is a dot. -/
def startsWithDot (name : String) : Bool :=
  match name.data with
  | '.' :: _ => true
  | _ => false

/-- `shouldSkipPath`: hidden names (leading `'.'`) and the deny-list of
OS/tooling directory names. -/
def shouldSkipPath (name : String) : Bool :=
  startsWithDot name ||
    name ∈ ["node_modules", "__MACOSX", ".Trash", ".Spotlight-V100", ".fseventsd"]

/-- A filesystem entry: a file or a directory with its entries. -/
inductive FSEntry where
  | file (name : String)
  | dir (name : String) (entries : List FSEntry)

mutual
/-- The paths yielded when the walker's loop visits one entry: check
`shouldSkipPath` on the name first, recurse into directories, yield a file
iff `isVideoFile`. -/
def scanEntry : FSEntry → List (List String)
  | .file name =>
    if shouldSkipPath name then [] else if isVideoFile name then [[name]] else []
  | .dir name entries =>
    if shouldSkipPath name then [] else (scanEntries entries).map (name :: ·)
/-- `scanDirectory` over a directory's entry list, in order. -/
def scanEntries : List FSEntry → List (List String)
  | [] => []
  | e :: es => scanEntry e ++ scanEntries es
end

/-- The specification predicate: a component path that resolves through
non-skipped directories to a non-skipped file whose extension is in the
allow-list (case-insensitively). -/
def yieldable : List String → List FSEntry → Bool
  | [], _ => false
  | [n], entries =>
    entries.any fun e =>
      match e with
      | .file m => m == n && !shouldSkipPath n && isVideoFile n
      | .dir _ _ => false
  | n :: r :: rest, entries =>
    entries.any fun e =>
      match e with
      | .file _ => false
      | .dir m ces => m == n && !shouldSkipPath n && yieldable (r :: rest) ces

/-- A demo tree: a hidden file, a deny-listed directory and a nested
subdirectory under `"footage"`, plus a non-video file at the root. -/
def demoTree : List FSEntry :=
  [.dir "footage"
    [.file "clip.MP4", .file ".hidden.mp4",
     .dir "node_modules" [.file "inside.mp4"],
     .dir "sub" [.file "deep.mov"]],
   .file "notes.txt"]

/-! ## Theorems -/

lemma generateSpriteSheetConfig_30 :
    generateSpriteSheetConfig 30 =
      { width := 160, height := 90, columns := 10, rows := 3, interval := 1, totalFrames := 30 } := by
  norm_num [generateSpriteSheetConfig, spriteColumns, spriteRows, spriteFps,
    spriteTotalFrames, spriteInterval]

lemma generateSpriteSheetConfig_120 :
    generateSpriteSheetConfig 120 =
      { width := 160, height := 90, columns := 10, rows := 10, interval := 3, totalFrames := 40 } := by
  norm_num [generateSpriteSheetConfig, spriteColumns, spriteRows, spriteFps,
    spriteTotalFrames, spriteInterval]

lemma generateSpriteSheetConfig_3600 :
    generateSpriteSheetConfig 3600 =
      { width := 160, height := 90, columns := 20, rows := 10, interval := 30, totalFrames := 120 } := by
  norm_num [generateSpriteSheetConfig, spriteColumns, spriteRows, spriteFps,
    spriteTotalFrames, spriteInterval]

/-- **C1.** For every positive duration `d`, the sprite configuration computed
by `generateSpriteSheet` satisfies the tiered table: `d ≤ 60` gives nominal
interval 1 s, columns 10, rows `⌈min d 60 / 10⌉`; `60 < d ≤ 300` gives columns
10, rows 10 with a frame every 3 seconds; `300 < d ≤ 1800` gives columns 15,
rows 10 with a frame every 12 seconds; `d > 1800` gives columns 20, rows 10
with a frame every 30 seconds; `totalFrames = min (⌈d / interval⌉) (columns * rows)`
and the reported interval is recomputed as `d / totalFrames`.  In particular
`d = 30` yields interval 1, columns 10, rows 3, totalFrames 30; `d = 120`
yields columns 10, rows 10, totalFrames ≤ 100; `d = 3600` yields columns 20,
rows 10, totalFrames ≤ 200. -/
theorem sprite_config_tiers (d : ℚ) (hd : 0 < d) :
    (d ≤ 60 → (generateSpriteSheetConfig d).columns = 10 ∧
      (generateSpriteSheetConfig d).rows = ⌈min d 60 / 10⌉ ∧ spriteNominalInterval d = 1) ∧
    (60 < d → d ≤ 300 → (generateSpriteSheetConfig d).columns = 10 ∧
      (generateSpriteSheetConfig d).rows = 10 ∧ spriteNominalInterval d = 3) ∧
    (300 < d → d ≤ 1800 → (generateSpriteSheetConfig d).columns = 15 ∧
      (generateSpriteSheetConfig d).rows = 10 ∧ spriteNominalInterval d = 12) ∧
    (1800 < d → (generateSpriteSheetConfig d).columns = 20 ∧
      (generateSpriteSheetConfig d).rows = 10 ∧ spriteNominalInterval d = 30) ∧
    (generateSpriteSheetConfig d).totalFrames =
      min ⌈d / spriteNominalInterval d⌉
        ((generateSpriteSheetConfig d).columns * (generateSpriteSheetConfig d).rows) ∧
    (generateSpriteSheetConfig d).interval =
      d / ((generateSpriteSheetConfig d).totalFrames : ℚ) ∧
    (d = 30 → generateSpriteSheetConfig d =
      { width := 160, height := 90, columns := 10, rows := 3, interval := 1, totalFrames := 30 }) ∧
    (d = 120 → (generateSpriteSheetConfig d).columns = 10 ∧
      (generateSpriteSheetConfig d).rows = 10 ∧ (generateSpriteSheetConfig d).totalFrames ≤ 100) ∧
    (d = 3600 → (generateSpriteSheetConfig d).columns = 20 ∧
      (generateSpriteSheetConfig d).rows = 10 ∧ (generateSpriteSheetConfig d).totalFrames ≤ 200) := by
  refine ⟨?_, ?_, ?_, ?_, ?_, ?_, ?_, ?_, ?_⟩
  · intro h1
    simp only [generateSpriteSheetConfig, spriteColumns, spriteRows, spriteNominalInterval,
      spriteFps, if_pos h1]
    norm_num
  · intro h1 h2
    simp only [generateSpriteSheetConfig, spriteColumns, spriteRows, spriteNominalInterval,
      spriteFps, if_neg (not_le.mpr h1), if_pos h2]
    norm_num
  · intro h1 h2
    have h1' : ¬ d ≤ 60 := by linarith
    have h1'' : ¬ d ≤ 300 := by linarith
    simp only [generateSpriteSheetConfig, spriteColumns, spriteRows, spriteNominalInterval,
      spriteFps, if_neg h1', if_neg h1'', if_pos h2]
    norm_num
  · intro h1
    have h1' : ¬ d ≤ 60 := by linarith
    have h1'' : ¬ d ≤ 300 := by linarith
    have h1''' : ¬ d ≤ 1800 := by linarith
    simp only [generateSpriteSheetConfig, spriteColumns, spriteRows, spriteNominalInterval,
      spriteFps, if_neg h1', if_neg h1'', if_neg h1''']
    norm_num
  · simp only [generateSpriteSheetConfig, spriteTotalFrames, spriteNominalInterval]
    rw [div_div_eq_mul_div, div_one]
  · rfl
  · rintro rfl; exact generateSpriteSheetConfig_30
  · rintro rfl
    rw [generateSpriteSheetConfig_120]
    norm_num
  · rintro rfl
    rw [generateSpriteSheetConfig_3600]
    norm_num

/-- Witness for `sprite_config_tiers` at the concrete duration 30. -/
theorem sprite_config_tiers_witness :
    generateSpriteSheetConfig 30 =
      { width := 160, height := 90, columns := 10, rows := 3, interval := 1, totalFrames := 30 } := by
  have h := sprite_config_tiers 30 (by norm_num)
  exact h.2.2.2.2.2.2.1 rfl

lemma isDigit_ne (c : Char) (h : c.isDigit = true) :
    c ≠ '-' ∧ c ≠ '+' ∧ c ≠ '.' ∧ c ≠ '/' := by
  refine ⟨?_, ?_, ?_, ?_⟩ <;> · rintro rfl; simp at h

lemma dot_not_mem_of_digits {ds : List Char} (h : ds.all (·.isDigit) = true) : '.' ∉ ds := by
  intro hm
  have := (List.all_eq_true.mp h) _ hm
  simp at this

lemma slash_not_mem_of_digits {ds : List Char} (h : ds.all (·.isDigit) = true) : '/' ∉ ds := by
  intro hm
  have := (List.all_eq_true.mp h) _ hm
  simp at this

lemma splitOnChar_of_not_mem (sep : Char) (cs : List Char) (h : sep ∉ cs) :
    splitOnChar sep cs = [cs] := by
  induction cs with
  | nil => rfl
  | cons c cs ih =>
    have hc : c ≠ sep := fun hcs => h (hcs ▸ List.mem_cons_self c cs)
    have hcs : sep ∉ cs := fun hm => h (List.mem_cons_of_mem c hm)
    simp only [splitOnChar, if_neg hc, ih hcs]

lemma splitOnChar_append (sep : Char) (a b : List Char) (ha : sep ∉ a) :
    splitOnChar sep (a ++ sep :: b) = a :: splitOnChar sep b := by
  induction a with
  | nil => simp [splitOnChar]
  | cons c a ih =>
    have hc : c ≠ sep := fun hcs => ha (hcs ▸ List.mem_cons_self c a)
    have has : sep ∉ a := fun hm => ha (List.mem_cons_of_mem c hm)
    simp only [List.cons_append, splitOnChar, if_neg hc, List.append_eq]
    rw [ih has]

lemma jsNumber_digits (ds : List Char) (h : ds.all (·.isDigit) = true) :
    jsNumber ds = some ((natOfDigits ds : ℚ)) := by
  cases ds with
  | nil => rfl
  | cons c rest =>
    have hc : c.isDigit = true := (List.all_eq_true.mp h) _ (List.mem_cons_self c rest)
    obtain ⟨h1, h2, _, _⟩ := isDigit_ne c hc
    have hdot : '.' ∉ (c :: rest) := dot_not_mem_of_digits h
    simp only [jsNumber, if_neg h1, if_neg h2, jsNumberUnsigned,
      splitOnChar_of_not_mem '.' _ hdot]
    rw [if_pos ⟨h, by simp⟩]

/-- **C6 (counterexample).** The claim says `parseFrameRate` "returns the
default 30 whenever the input is absent or malformed (including a zero
denominator and any non-numeric content)".  At the non-numeric input
`"abc/2"` it instead returns `NaN` (the denominator `2` is truthy, so the
code returns `Number("abc") / 2 = NaN`), not 30. -/
theorem parseFrameRate_nan_counterexample :
    parseFrameRate (some "abc/2".data) = none ∧ (none : Option ℚ) ≠ some 30 := by
  constructor
  · decide
  · decide

/-- **C6 (amended).** `parseFrameRate` returns `num / den` for a rational of
the form `num/den` with an all-digit (possibly empty, since `Number('') = 0`)
numerator and an all-digit nonzero denominator; it returns the default 30
when the input is absent or empty, when a slash is present but the
denominator is falsy (zero, missing, or non-numeric), and when no slash is
present and `parseFloat` gives `NaN` or `0`; however, a non-numeric
(`NaN`-parsing) numerator over a truthy denominator yields `NaN`, not 30. -/
theorem parseFrameRate_spec :
    (parseFrameRate none = some 30 ∧ parseFrameRate (some []) = some 30) ∧
    (∀ num den : List Char, num.all (·.isDigit) = true → den.all (·.isDigit) = true →
      natOfDigits den ≠ 0 →
      parseFrameRate (some (num ++ '/' :: den)) =
        some ((natOfDigits num : ℚ) / (natOfDigits den : ℚ))) ∧
    (∀ num den : List Char, '/' ∉ num → jsNumber num = none →
      den.all (·.isDigit) = true → natOfDigits den ≠ 0 →
      parseFrameRate (some (num ++ '/' :: den)) = none) ∧
    (∀ num den : List Char, '/' ∉ num → '/' ∉ den → jsTruthy (jsNumber den) = false →
      parseFrameRate (some (num ++ '/' :: den)) = some 30) ∧
    (∀ cs : List Char, cs ≠ [] → '/' ∉ cs → jsTruthy (parseFloatJS cs) = false →
      parseFrameRate (some cs) = some 30) := by
  have hsplit : ∀ num den : List Char, '/' ∉ num → '/' ∉ den →
      splitOnChar '/' (num ++ '/' :: den) = [num, den] := by
    intro num den hn hd
    rw [splitOnChar_append '/' num den hn, splitOnChar_of_not_mem '/' den hd]
  have hmem : ∀ num den : List Char, '/' ∈ num ++ '/' :: den := by
    intro num den
    exact List.mem_append_right _ (List.mem_cons_self _ _)
  have hne : ∀ num den : List Char, num ++ '/' :: den ≠ [] := by
    intro num den h
    simpa using congrArg List.length h
  refine ⟨⟨rfl, rfl⟩, ?_, ?_, ?_, ?_⟩
  · intro num den hnum hden hden0
    have hn : '/' ∉ num := slash_not_mem_of_digits hnum
    have hd : '/' ∉ den := slash_not_mem_of_digits hden
    have hcast : (natOfDigits den : ℚ) ≠ 0 := Nat.cast_ne_zero.mpr hden0
    simp only [parseFrameRate, if_neg (hne num den), if_pos (hmem num den),
      hsplit num den hn hd, jsNumberAt, List.get?, jsNumber_digits num hnum,
      jsNumber_digits den hden]
    simp [jsTruthy, jsDiv, hcast]
  · intro num den hn hnum hden hden0
    have hd : '/' ∉ den := slash_not_mem_of_digits hden
    have hcast : (natOfDigits den : ℚ) ≠ 0 := Nat.cast_ne_zero.mpr hden0
    simp only [parseFrameRate, if_neg (hne num den), if_pos (hmem num den),
      hsplit num den hn hd, jsNumberAt, List.get?, jsNumber_digits den hden, hnum]
    simp [jsTruthy, jsDiv, hcast]
  · intro num den hn hd htruthy
    simp only [parseFrameRate, if_neg (hne num den), if_pos (hmem num den),
      hsplit num den hn hd, jsNumberAt, List.get?, htruthy]
    simp
  · intro cs hcs hmem htruthy
    simp only [parseFrameRate, if_neg hcs, if_neg hmem, htruthy]
    simp

lemma char_toNat_injective : Function.Injective Char.toNat :=
  fun _ _ h => Char.eq_of_val_eq (UInt32.toNat.inj h)

lemma strBytes_injective : Function.Injective strBytes := by
  intro s t h
  have hd : s.data = t.data := List.map_injective_iff.mpr char_toNat_injective h
  exact congrArg String.mk hd

lemma digitsFuel_eq_digits : ∀ fuel n : ℕ, n ≤ fuel → digitsFuel fuel n = Nat.digits 10 n := by
  intro fuel
  induction fuel with
  | zero =>
    intro n hn
    have : n = 0 := Nat.le_zero.mp hn
    subst this
    simp [digitsFuel]
  | succ fuel ih =>
    intro n hn
    match n with
    | 0 => simp [digitsFuel]
    | n + 1 =>
      rw [digitsFuel, Nat.digits_def' (by norm_num : (1:ℕ) < 10) (Nat.succ_pos n)]
      congr 1
      have hdiv : (n + 1) / 10 < n + 1 := Nat.div_lt_self (Nat.succ_pos n) (by norm_num)
      exact ih _ (Nat.lt_succ_iff.mp (Nat.lt_of_lt_of_le hdiv hn))

lemma jsNatBytes_pos_eq {n : ℕ} (h : n ≠ 0) :
    jsNatBytes n = (Nat.digits 10 n).reverse.map (· + 48) := by
  rw [jsNatBytes, if_neg h, digitsFuel_eq_digits n n le_rfl]

lemma jsNatBytes_ne_zero_bytes {n : ℕ} (hn : n ≠ 0) : jsNatBytes n ≠ [48] := by
  intro hcontra
  rw [jsNatBytes_pos_eq hn] at hcontra
  have hrev : (Nat.digits 10 n).reverse = [0] := by
    rcases hr : (Nat.digits 10 n).reverse with _ | ⟨x, rest⟩
    · rw [hr] at hcontra; simp at hcontra
    · rw [hr] at hcontra
      simp only [List.map_cons, List.cons.injEq] at hcontra
      have hx : x = 0 := by omega
      have hrest : rest = [] := by
        have := hcontra.2
        simpa using this
      rw [hx, hrest]
  have hdig : Nat.digits 10 n = [0] := by
    have := congrArg List.reverse hrev
    simpa using this
  have h0 : n = 0 := by
    have hofd := (Nat.ofDigits_digits 10 n).symm
    rw [hdig] at hofd
    simpa [Nat.ofDigits] using hofd
  exact hn h0

lemma jsNatBytes_injective : Function.Injective jsNatBytes := by
  intro a b h
  by_cases ha : a = 0 <;> by_cases hb : b = 0
  · rw [ha, hb]
  · exact absurd (by rw [← h, ha, jsNatBytes]; simp) (jsNatBytes_ne_zero_bytes hb)
  · exact absurd (by rw [h, hb, jsNatBytes]; simp) (jsNatBytes_ne_zero_bytes ha)
  · rw [jsNatBytes_pos_eq ha, jsNatBytes_pos_eq hb] at h
    have hrev := List.map_injective_iff.mpr (add_left_injective 48) h
    have hdig := List.reverse_injective hrev
    exact Nat.digits.injective 10 hdig

lemma jsNatBytes_zero : jsNatBytes 0 = [48] := by simp [jsNatBytes]

lemma jsNatBytes_length_mono : Monotone fun n => (jsNatBytes n).length := by
  intro a b hab
  show (jsNatBytes a).length ≤ (jsNatBytes b).length
  by_cases ha : a = 0
  · subst ha
    rw [jsNatBytes_zero]
    by_cases hb : b = 0
    · subst hb; rw [jsNatBytes_zero]
    · rw [jsNatBytes_pos_eq hb]
      simp only [List.length_map, List.length_reverse, List.length_singleton]
      have hd : Nat.digits 10 b ≠ [] := Nat.digits_ne_nil_iff_ne_zero.mpr hb
      exact List.length_pos.mpr hd
  · have hb : b ≠ 0 := by omega
    rw [jsNatBytes_pos_eq ha, jsNatBytes_pos_eq hb]
    simp only [List.length_map, List.length_reverse]
    exact Nat.le_digits_len_le 10 a b hab

lemma jsNatBytes_length_65535 : (jsNatBytes 65535).length = 5 := by
  rw [jsNatBytes_pos_eq (by norm_num)]
  simp only [List.length_map, List.length_reverse]
  rw [Nat.digits_len 10 65535 (by norm_num) (by norm_num),
    Nat.log_eq_of_pow_le_of_lt_pow (show 10 ^ 4 ≤ 65535 by norm_num)
      (show 65535 < 10 ^ (4 + 1) by norm_num)]

lemma jsNatBytes_length_65536 : (jsNatBytes 65536).length = 5 := by
  rw [jsNatBytes_pos_eq (by norm_num)]
  simp only [List.length_map, List.length_reverse]
  rw [Nat.digits_len 10 65536 (by norm_num) (by norm_num),
    Nat.log_eq_of_pow_le_of_lt_pow (show 10 ^ 4 ≤ 65536 by norm_num)
      (show 65536 < 10 ^ (4 + 1) by norm_num)]

/-- **C7.** For any injective digest (collisions excluded), the fingerprint
token is a function of exactly the first `min(size, 65536)` content bytes,
the total size, and the mtime string: two files get the same token iff they
agree on all three.  Right-to-left: the fingerprint is deterministic and
never reads past the first 65536 bytes.  Left-to-right: a change to any of
the three inputs changes the token.  The `mtimeIso` length hypothesis
reflects that `Date.prototype.toISOString` always produces 24 characters. -/
theorem getFileFingerprint_spec {α : Type} (digest : List ℕ → α)
    (hdig : Function.Injective digest) (f g : SourceFile)
    (hm : f.mtimeIso.length = g.mtimeIso.length) :
    getFileFingerprint digest f = getFileFingerprint digest g ↔
      (f.content.take 65536 = g.content.take 65536 ∧
        f.content.length = g.content.length ∧ f.mtimeIso = g.mtimeIso) := by
  constructor
  · intro h
    have hin : fingerprintInput f = fingerprintInput g := hdig h
    rw [fingerprintInput, fingerprintInput] at hin
    have hmlen : (strBytes f.mtimeIso).length = (strBytes g.mtimeIso).length := by
      simp only [strBytes, List.length_map]
      exact hm
    obtain ⟨h12, hmeq⟩ := List.append_inj' hin hmlen
    have hmtime : f.mtimeIso = g.mtimeIso := strBytes_injective hmeq
    have hlen : min 65536 f.content.length + (jsNatBytes f.content.length).length =
        min 65536 g.content.length + (jsNatBytes g.content.length).length := by
      have := congrArg List.length h12
      simpa [List.length_append, List.length_take] using this
    have hsize : f.content.length = g.content.length := by
      set n1 := f.content.length with hn1
      set n2 := g.content.length with hn2
      by_cases h1 : n1 < 65536 <;> by_cases h2 : n2 < 65536
      · rw [min_eq_right h1.le, min_eq_right h2.le] at hlen
        rcases le_total n1 n2 with hle | hle
        · have hmono : (jsNatBytes n1).length ≤ (jsNatBytes n2).length :=
            jsNatBytes_length_mono hle
          omega
        · have hmono : (jsNatBytes n2).length ≤ (jsNatBytes n1).length :=
            jsNatBytes_length_mono hle
          omega
      · have hL1 : (jsNatBytes n1).length ≤ 5 := by
          have hmono : (jsNatBytes n1).length ≤ (jsNatBytes 65535).length :=
            jsNatBytes_length_mono (show n1 ≤ 65535 by omega)
          rwa [jsNatBytes_length_65535] at hmono
        have hL2 : 5 ≤ (jsNatBytes n2).length := by
          have hmono : (jsNatBytes 65536).length ≤ (jsNatBytes n2).length :=
            jsNatBytes_length_mono (show 65536 ≤ n2 by omega)
          rwa [jsNatBytes_length_65536] at hmono
        rw [min_eq_right h1.le, min_eq_left (by omega)] at hlen
        omega
      · have hL2 : (jsNatBytes n2).length ≤ 5 := by
          have hmono : (jsNatBytes n2).length ≤ (jsNatBytes 65535).length :=
            jsNatBytes_length_mono (show n2 ≤ 65535 by omega)
          rwa [jsNatBytes_length_65535] at hmono
        have hL1 : 5 ≤ (jsNatBytes n1).length := by
          have hmono : (jsNatBytes 65536).length ≤ (jsNatBytes n1).length :=
            jsNatBytes_length_mono (show 65536 ≤ n1 by omega)
          rwa [jsNatBytes_length_65536] at hmono
        rw [min_eq_left (by omega), min_eq_right h2.le] at hlen
        omega
      · rw [min_eq_left (by omega), min_eq_left (by omega)] at hlen
        have hL : (jsNatBytes n1).length = (jsNatBytes n2).length := by omega
        obtain ⟨_, hs⟩ := List.append_inj' h12 hL
        exact jsNatBytes_injective hs
    have hslen : (jsNatBytes f.content.length).length =
        (jsNatBytes g.content.length).length := by rw [hsize]
    obtain ⟨hp, _⟩ := List.append_inj' h12 hslen
    exact ⟨hp, hsize, hmtime⟩
  · rintro ⟨ht, hl, hmt⟩
    unfold getFileFingerprint fingerprintInput
    rw [ht, hl, hmt]

/-- Witness for `getFileFingerprint_spec`: two one-byte files with equal
content but different mtime strings fingerprint differently. -/
theorem getFileFingerprint_spec_witness :
    getFileFingerprint id ⟨[7], "2024-01-01T00:00:00.000Z"⟩ ≠
      getFileFingerprint id ⟨[7], "2024-01-02T00:00:00.000Z"⟩ := by
  intro h
  have hiff := getFileFingerprint_spec id (fun _ _ hx => hx)
    ⟨[7], "2024-01-01T00:00:00.000Z"⟩ ⟨[7], "2024-01-02T00:00:00.000Z"⟩ (by decide)
  have := (hiff.mp h).2.2
  exact absurd this (by decide)

/-- Witness for `parseFrameRate_spec`: the NTSC rational `"30000/1001"`
parses to `30000 / 1001`, and the zero-denominator input `"30/0"` defaults
to 30. -/
theorem parseFrameRate_spec_witness :
    parseFrameRate (some ("30000".data ++ '/' :: "1001".data)) =
      some ((natOfDigits "30000".data : ℚ) / (natOfDigits "1001".data : ℚ)) ∧
    parseFrameRate (some ("30".data ++ '/' :: "0".data)) = some 30 := by
  constructor
  · exact parseFrameRate_spec.2.1 "30000".data "1001".data (by decide) (by decide) (by decide)
  · exact parseFrameRate_spec.2.2.2.1 "30".data "0".data (by decide) (by decide) (by decide)

lemma getVideoByPath_insert_self (s : VideoStore) (v : VideoInsertData) (t : String) :
    getVideoByPath (insertVideo s v t).1 v.filePath = some (insertVideo s v t).2 := by
  simp [insertVideo, getVideoByPath, List.find?]

lemma mem_insertVideo_path (s : VideoStore) (v : VideoInsertData) (t : String)
    (r : VideoRow) (hr : r ∈ (insertVideo s v t).1) (hp : r.filePath = v.filePath) :
    r = (insertVideo s v t).2 := by
  simp only [insertVideo] at hr ⊢
  rcases List.mem_cons.mp hr with h | h
  · exact h
  · exfalso
    have hpred := (List.mem_filter.mp h).2
    simp only [Bool.not_eq_true', Bool.or_eq_false_iff, beq_eq_false_iff_ne] at hpred
    exact hpred.2 hp

lemma processVideoFile_not_skip (env : FileEnv) (store : VideoStore) (p : String)
    (g : Bool) (fp : String) (st : FileStat)
    (hfp : env.fingerprint = .ok fp) (hst : env.stat = .ok st)
    (hns : NotSkippable store p fp) :
    processVideoFile env store p g = processVideoFileCont env store p g fp st := by
  simp only [processVideoFile, hfp, hst]
  cases hex : getVideoByPath store p with
  | none => rfl
  | some ex => simp [hns ex hex]

/-- **C9.** `generateId` is not injective: the distinct paths `"Aa"` and
`"BB"` produce the same id (their 32-bit hashes coincide; `Math.abs`
additionally identifies a hash `h` with `-h`), so an `INSERT OR REPLACE`
upsert for one path silently removes the stored record of the other: after
inserting a record for `"Aa"` and then one for `"BB"`, the lookup for
`"Aa"` returns nothing. -/
theorem generateId_not_injective :
    (generateId "Aa" = generateId "BB" ∧ ("Aa" : String) ≠ "BB") ∧
    (∀ h : ℤ, toBase36 (-h).natAbs = toBase36 h.natAbs) ∧
    (getVideoByPath (insertVideo [] collisionDataAa "T").1 "Aa" ≠ none ∧
      getVideoByPath
        (insertVideo (insertVideo [] collisionDataAa "T").1 collisionDataBB "T").1 "Aa" =
        none) := by
  refine ⟨⟨by decide, by decide⟩, ?_, by decide, by decide⟩
  intro h
  rw [Int.natAbs_neg]

/-- **C10.** `insertVideo` is an `INSERT OR REPLACE` of the whole row: the
row it writes has `hasProxy`/`hasSprite` false and `proxyPath`,
`spritePath`, `thumbnailPath` NULL; it is the only row left at that path;
and for a changed file (stored fingerprint differs, proxy present) the
scan's re-processing leaves the record with thumbnail and sprite freshly
attached but `hasProxy = false` and `proxyPath = NULL` — the previously
generated proxy's association is lost and not restored. -/
theorem insertVideo_resets_assets :
    (∀ (store : VideoStore) (v : VideoInsertData) (t : String),
      (insertVideo store v t).2.hasProxy = false ∧
      (insertVideo store v t).2.hasSprite = false ∧
      (insertVideo store v t).2.proxyPath = none ∧
      (insertVideo store v t).2.spritePath = none ∧
      (insertVideo store v t).2.thumbnailPath = none) ∧
    (∀ (store : VideoStore) (v : VideoInsertData) (t : String) (r : VideoRow),
      r ∈ (insertVideo store v t).1 → r.filePath = v.filePath →
      r = (insertVideo store v t).2) ∧
    (∀ (env : FileEnv) (store : VideoStore) (p fp : String) (st : FileStat)
      (ex : VideoRow) (md : FFmpegMetadata) (tp sp : String),
      env.fingerprint = .ok fp → env.stat = .ok st →
      getVideoByPath store p = some ex → ex.fileHash ≠ some fp → ex.hasProxy = true →
      env.metadata = .ok md → 0 < md.duration →
      env.thumbnail = .ok tp → env.sprite = .ok sp →
      ∀ r ∈ (processVideoFile env store p true).store, r.filePath = p →
        r.hasProxy = false ∧ r.proxyPath = none ∧ r.hasSprite = true ∧
        r.thumbnailPath = some tp ∧ r.spritePath = some sp) := by
  refine ⟨fun store v t => ⟨rfl, rfl, rfl, rfl, rfl⟩,
    fun store v t r hr hp => mem_insertVideo_path store v t r hr hp, ?_⟩
  intro env store p fp st ex md tp sp hfp hst hex hhash hproxy hmd hdur hth hsp r hr hpath
  have hns : NotSkippable store p fp := by
    intro ex' hex'
    rw [hex] at hex'
    cases hex'
    exact hhash
  rw [processVideoFile_not_skip env store p true fp st hfp hst hns] at hr
  simp only [processVideoFileCont, hmd] at hr
  rw [if_pos ⟨trivial, hdur⟩] at hr
  rw [hth, hsp] at hr
  simp only [updateVideoThumbnailAndSprite, List.mem_map] at hr
  obtain ⟨x, hx, hfx⟩ := hr
  have hxpath : x.filePath = p := by
    by_cases hid : x.id = (insertVideo store
        { filePath := p, fileName := basename p, fileSize := st.size,
          duration := md.duration, width := some md.width, height := some md.height,
          createdAt := st.birthtimeIso, directory := dirname p,
          fileHash := some fp, fileMtime := some st.mtimeIso } env.now).2.id
    · rw [if_pos hid] at hfx
      rw [← hfx] at hpath
      exact hpath
    · rw [if_neg hid] at hfx
      rw [← hfx] at hpath
      exact hpath
  have hxrow := mem_insertVideo_path store _ env.now x hx hxpath
  have hid : x.id = (insertVideo store
      { filePath := p, fileName := basename p, fileSize := st.size,
        duration := md.duration, width := some md.width, height := some md.height,
        createdAt := st.birthtimeIso, directory := dirname p,
        fileHash := some fp, fileMtime := some st.mtimeIso } env.now).2.id := by
    rw [hxrow]
  rw [if_pos hid] at hfx
  rw [← hfx]
  rw [hxrow]
  exact ⟨rfl, rfl, rfl, rfl, rfl⟩

set_option maxRecDepth 4000 in
/-- Witness for `insertVideo_resets_assets`: re-processing `"a.mp4"`, whose
stored record `proxyRow` has a proxy, leaves exactly `c10Row` — proxy flag
and path wiped, thumbnail and sprite re-attached. -/
theorem insertVideo_resets_assets_witness :
    proxyRow.hasProxy = true ∧
    getVideoByPath (processVideoFile genOkEnv [proxyRow] "a.mp4" true).store "a.mp4" =
      some c10Row ∧
    c10Row.hasProxy = false ∧ c10Row.proxyPath = none ∧ c10Row.hasSprite = true := by
  have h := insertVideo_resets_assets.2.2 genOkEnv [proxyRow] "a.mp4" "fp" ⟨100, "M", "B"⟩
    proxyRow ⟨10, 1920, 1080, "h264", some 30, 1000⟩ "t.jpg" "s.jpg"
    rfl rfl (by decide) (by decide) rfl rfl (by norm_num) rfl rfl
    c10Row (by decide) rfl
  exact ⟨rfl, by decide, h.1, h.2.1, rfl⟩

lemma processVideoFile_skip_eq (env : FileEnv) (store : VideoStore) (filePath : String)
    (generateThumbs : Bool) (fp : String) (st : FileStat) (ex : VideoRow)
    (hfp : env.fingerprint = .ok fp) (hst : env.stat = .ok st)
    (hex : getVideoByPath store filePath = some ex) (hhash : ex.fileHash = some fp) :
    processVideoFile env store filePath generateThumbs = ⟨some ex, true, store, []⟩ := by
  simp only [processVideoFile, hfp, hst, hex]
  rw [if_pos hhash]

lemma runProcessPhase_unchanged_aux (units : List (String × FileEnv)) (store : VideoStore)
    (h : ∀ u ∈ units, UnchangedUnit store u) :
    ∀ (c : ScanCounts) (as : List ScanAction),
      units.foldl processPhaseStep (store, c, as) =
        (store, ⟨c.found + units.length, c.processed, c.skipped + units.length⟩, as) := by
  induction units with
  | nil => intro c as; simp
  | cons u us ih =>
    intro c as
    obtain ⟨fp, st, ex, hfp, hst, hex, hhash⟩ := h u (List.mem_cons_self u us)
    have hstep : processPhaseStep (store, c, as) u =
        (store, ⟨c.found + 1, c.processed, c.skipped + 1⟩, as) := by
      simp only [processPhaseStep,
        processVideoFile_skip_eq u.2 store u.1 true fp st ex hfp hst hex hhash]
      simp
    rw [List.foldl_cons, hstep, ih (fun v hv => h v (List.mem_cons_of_mem u hv))]
    simp only [List.length_cons, Prod.mk.injEq, ScanCounts.mk.injEq, true_and, and_true]
    omega

/-- **C3.** A unit whose freshly computed fingerprint matches the stored
record's fingerprint resolves as skipped, returns the existing record,
leaves the store untouched and performs no probe, no insert, and no
thumbnail or sprite generation; consequently re-scanning a fully unchanged
directory performs zero probe/generation invocations, processes nothing,
and reports a skip count equal to the number of scanned paths — which is
the previously indexed video count when the scanned paths are exactly the
stored records' paths. -/
theorem rescan_unchanged_skips (store : VideoStore) (units : List (String × FileEnv))
    (h : ∀ u ∈ units, UnchangedUnit store u) :
    (∀ (env : FileEnv) (filePath : String) (generateThumbs : Bool) (fp : String)
      (st : FileStat) (ex : VideoRow),
      env.fingerprint = .ok fp → env.stat = .ok st →
      getVideoByPath store filePath = some ex → ex.fileHash = some fp →
      processVideoFile env store filePath generateThumbs = ⟨some ex, true, store, []⟩) ∧
    runProcessPhase units store = (store, ⟨units.length, 0, units.length⟩, []) ∧
    (units.map Prod.fst = store.map VideoRow.filePath →
      (runProcessPhase units store).2.1.skipped = store.length ∧
      (runProcessPhase units store).2.1.processed = 0 ∧
      (runProcessPhase units store).2.2 = []) := by
  have hrun : runProcessPhase units store = (store, ⟨units.length, 0, units.length⟩, []) := by
    have := runProcessPhase_unchanged_aux units store h ⟨0, 0, 0⟩ []
    simpa [runProcessPhase] using this
  refine ⟨fun env filePath g fp st ex hfp hst hex hhash =>
    processVideoFile_skip_eq env store filePath g fp st ex hfp hst hex hhash, hrun, ?_⟩
  intro hpaths
  have hlen : units.length = store.length := by
    have := congrArg List.length hpaths
    simpa using this
  rw [hrun]
  exact ⟨hlen, rfl, rfl⟩

/-- Witness for `rescan_unchanged_skips`: one stored record, one matching
unit; the run returns the untouched store, zero processed, one skipped,
and an empty invocation list. -/
theorem rescan_unchanged_skips_witness :
    runProcessPhase [("a.mp4", unchangedEnv)] [unchangedRow] =
      ([unchangedRow], ⟨1, 0, 1⟩, []) := by
  have h := rescan_unchanged_skips [unchangedRow] [("a.mp4", unchangedEnv)]
    (fun u hu => by
      rw [List.mem_singleton] at hu
      subst hu
      exact ⟨"fp", ⟨100, "M", "B"⟩, unchangedRow, rfl, rfl, by decide, rfl⟩)
  exact h.2.1

lemma processPhaseStep_fail_id (p : String) (env : FileEnv) (e : String)
    (h : env.fingerprint = .error e) :
    ∀ acc, processPhaseStep acc (p, env) = acc := by
  intro acc
  simp [processPhaseStep, processVideoFile, h]

/-- **C2 (counterexample).** The claim says a thumbnail/sprite generation
failure leaves the unit neither processed nor skipped with the video absent
from the catalog.  In the code the record is inserted *before* generation
and the inner catch only skips the asset-path update: with a failing sprite
generation the unit returns the inserted video, is not skipped, the record
is in the catalog, and the session counts it as processed. -/
theorem scan_failure_policy_counterexample :
    genFailEnv.sprite = .error "boom" ∧
    (processVideoFile genFailEnv [] "a.mp4" true).video ≠ none ∧
    (processVideoFile genFailEnv [] "a.mp4" true).skipped = false ∧
    getVideoByPath (processVideoFile genFailEnv [] "a.mp4" true).store "a.mp4" ≠ none ∧
    (runProcessPhase [("a.mp4", genFailEnv)] []).2.1.processed = 1 := by
  exact ⟨rfl, by decide, by decide, by decide, by decide⟩

/-- **C2 (amended).** Failure policy of a processing unit: a metadata-probe
failure (likewise a fingerprint or stat read failure) is caught and the
unit resolves as neither processed nor skipped with the store untouched —
the video is absent from the catalog for this pass.  A thumbnail/sprite
generation failure is caught but only skips the asset-path update: the
record was already inserted, remains in the catalog, and the unit resolves
as processed (not skipped).  In both cases the failure never aborts the
other concurrent units or the session: a unit that fails outright is a
no-op of the phase fold, and the remaining units run unchanged. -/
theorem scan_failure_policy :
    (∀ (env : FileEnv) (store : VideoStore) (p fp : String) (st : FileStat) (e : String),
      env.fingerprint = .ok fp → env.stat = .ok st → env.metadata = .error e →
      NotSkippable store p fp →
      processVideoFile env store p true = ⟨none, false, store, [.probe]⟩) ∧
    (∀ (env : FileEnv) (store : VideoStore) (p fp : String) (st : FileStat)
      (md : FFmpegMetadata),
      env.fingerprint = .ok fp → env.stat = .ok st → env.metadata = .ok md →
      0 < md.duration →
      ((∃ e, env.thumbnail = .error e) ∨ (∃ e, env.sprite = .error e)) →
      NotSkippable store p fp →
      (processVideoFile env store p true).skipped = false ∧
      (processVideoFile env store p true).video.isSome = true ∧
      ScanAction.updateThumbSprite ∉ (processVideoFile env store p true).actions ∧
      getVideoByPath (processVideoFile env store p true).store p ≠ none) ∧
    (∀ (pre post : List (String × FileEnv)) (store : VideoStore) (p e : String)
      (env : FileEnv),
      env.fingerprint = .error e →
      runProcessPhase (pre ++ (p, env) :: post) store =
        runProcessPhase (pre ++ post) store) := by
  refine ⟨?_, ?_, ?_⟩
  · intro env store p fp st e hfp hst hmd hns
    rw [processVideoFile_not_skip env store p true fp st hfp hst hns]
    simp [processVideoFileCont, hmd]
  · intro env store p fp st md hfp hst hmd hdur hdisj hns
    rw [processVideoFile_not_skip env store p true fp st hfp hst hns]
    simp only [processVideoFileCont, hmd]
    rw [if_pos ⟨trivial, hdur⟩]
    have hbase : ∀ res : UnitResult,
        res = ⟨some (insertVideo store
          { filePath := p, fileName := basename p, fileSize := st.size,
            duration := md.duration, width := some md.width, height := some md.height,
            createdAt := st.birthtimeIso, directory := dirname p,
            fileHash := some fp, fileMtime := some st.mtimeIso } env.now).2, false,
          (insertVideo store
          { filePath := p, fileName := basename p, fileSize := st.size,
            duration := md.duration, width := some md.width, height := some md.height,
            createdAt := st.birthtimeIso, directory := dirname p,
            fileHash := some fp, fileMtime := some st.mtimeIso } env.now).1,
          [.probe, .insert, .generateThumbSprite]⟩ →
        res.skipped = false ∧ res.video.isSome = true ∧
        ScanAction.updateThumbSprite ∉ res.actions ∧
        getVideoByPath res.store p ≠ none := by
      rintro res rfl
      refine ⟨rfl, rfl, by simp, ?_⟩
      rw [getVideoByPath_insert_self store
        { filePath := p, fileName := basename p, fileSize := st.size,
          duration := md.duration, width := some md.width, height := some md.height,
          createdAt := st.birthtimeIso, directory := dirname p,
          fileHash := some fp, fileMtime := some st.mtimeIso } env.now]
      simp
    rcases hdisj with ⟨e, hth⟩ | ⟨e, hsp⟩
    · rw [hth]
      cases hsp : env.sprite with
      | error e' => exact hbase _ rfl
      | ok sp' => exact hbase _ rfl
    · rw [hsp]
      cases hth : env.thumbnail with
      | error e' => exact hbase _ rfl
      | ok tp' => exact hbase _ rfl
  · intro pre post store p e env hfp
    simp only [runProcessPhase, List.foldl_append, List.foldl_cons,
      processPhaseStep_fail_id p env e hfp]

/-- Witness for `scan_failure_policy` at concrete environments: a
probe-failure unit resolves `⟨null, not-skipped⟩` touching nothing; a
sprite-generation-failure unit is not marked skipped; a unit whose
fingerprint read fails drops out of the phase without disturbing it. -/
theorem scan_failure_policy_witness :
    processVideoFile probeFailEnv [] "b.mp4" true = ⟨none, false, [], [.probe]⟩ ∧
    (processVideoFile genFailEnv [] "a.mp4" true).skipped = false ∧
    runProcessPhase ([] ++ ("x.mp4", fpReadFailEnv) :: []) [] =
      runProcessPhase ([] ++ []) [] := by
  have hns : NotSkippable [] "b.mp4" "fp" := fun ex hex => by
    simp [getVideoByPath, List.find?] at hex
  have hns2 : NotSkippable [] "a.mp4" "fp" := fun ex hex => by
    simp [getVideoByPath, List.find?] at hex
  have h1 := scan_failure_policy.1 probeFailEnv [] "b.mp4" "fp" ⟨100, "M", "B"⟩
    "ffprobe exited with code 1" rfl rfl rfl hns
  have h2 := scan_failure_policy.2.1 genFailEnv [] "a.mp4" "fp" ⟨100, "M", "B"⟩
    ⟨10, 1920, 1080, "h264", some 30, 1000⟩ rfl rfl rfl (by norm_num)
    (Or.inr ⟨"boom", rfl⟩) hns2
  have h3 := scan_failure_policy.2.2 [] [] [] "x.mp4" "EIO" fpReadFailEnv rfl
  exact ⟨h1, h2.1, h3⟩

lemma getNextQueuedJob_pick_min :
    ∀ (l : List ProxyJob) (acc : Option ProxyJob) (j : ProxyJob),
      l.foldl (fun acc j =>
        match acc with
        | none => some j
        | some m => if j.createdAt < m.createdAt then some j else some m) acc = some j →
      (∀ x ∈ l, j.createdAt ≤ x.createdAt) ∧
        (∀ m, acc = some m → j.createdAt ≤ m.createdAt) := by
  intro l
  induction l with
  | nil =>
    intro acc j h
    simp only [List.foldl_nil] at h
    refine ⟨fun x hx => absurd hx (List.not_mem_nil x), fun m hm => ?_⟩
    rw [h] at hm
    cases hm
    exact le_refl _
  | cons x rest ih =>
    intro acc j h
    obtain ⟨hrest, hacc'⟩ := ih _ j h
    have hx : j.createdAt ≤ x.createdAt := by
      cases acc with
      | none => exact hacc' x rfl
      | some m =>
        by_cases hlt : x.createdAt < m.createdAt
        · exact hacc' x (by simp [hlt])
        · exact le_trans (hacc' m (by simp [hlt])) (not_lt.mp hlt)
    refine ⟨fun y hy => ?_, fun m hm => ?_⟩
    · rcases List.mem_cons.mp hy with rfl | hy'
      · exact hx
      · exact hrest y hy'
    · subst hm
      by_cases hlt : x.createdAt < m.createdAt
      · exact le_trans (hacc' x (by simp [hlt])) hlt.le
      · exact hacc' m (by simp [hlt])

lemma getNextQueuedJob_min {q : ProxyQueue} {j : ProxyJob}
    (h : getNextQueuedJob q = some j) :
    ∀ j' ∈ q, j'.status = .queued → j.createdAt ≤ j'.createdAt := by
  intro j' hj' hq'
  have hmem : j' ∈ q.filter (fun x => x.status == .queued) :=
    List.mem_filter.mpr ⟨hj', by simpa using hq'⟩
  exact (getNextQueuedJob_pick_min _ none j h).1 j' hmem

lemma getNextQueuedJob_pick_isSome :
    ∀ (l : List ProxyJob) (m : ProxyJob),
      (l.foldl (fun acc j =>
        match acc with
        | none => some j
        | some m => if j.createdAt < m.createdAt then some j else some m) (some m)).isSome :=
  by
  intro l
  induction l with
  | nil => intro m; rfl
  | cons x rest ih =>
    intro m
    simp only [List.foldl_cons]
    by_cases hlt : x.createdAt < m.createdAt
    · simpa [hlt] using ih x
    · simpa [hlt] using ih m

lemma getNextQueuedJob_none {q : ProxyQueue} (h : getNextQueuedJob q = none) :
    ∀ x ∈ q, x.status ≠ .queued := by
  intro x hx hq
  have hmem : x ∈ q.filter (fun y => y.status == .queued) :=
    List.mem_filter.mpr ⟨hx, by simpa using hq⟩
  unfold getNextQueuedJob at h
  rcases hfil : q.filter (fun y => y.status == .queued) with _ | ⟨a, l⟩
  · rw [hfil] at hmem
    exact absurd hmem (List.not_mem_nil x)
  · rw [hfil] at h
    simp only [List.foldl_cons] at h
    have := getNextQueuedJob_pick_isSome l a
    rw [h] at this
    exact absurd this (by simp)

lemma jobEvolves_refl (a : ProxyJob) : JobEvolves a a := ⟨rfl, rfl, rfl, Or.inl rfl⟩

lemma jobEvolves_trans {a b c : ProxyJob} (h1 : JobEvolves a b) (h2 : JobEvolves b c) :
    JobEvolves a c := by
  obtain ⟨hid1, hv1, hc1, hs1⟩ := h1
  obtain ⟨hid2, hv2, hc2, hs2⟩ := h2
  refine ⟨hid2.trans hid1, hv2.trans hv1, hc2.trans hc1, ?_⟩
  rcases hs2 with h | h | h
  · rw [h]; exact hs1
  · exact Or.inr (Or.inl h)
  · exact Or.inr (Or.inr h)

lemma forall₂_jobEvolves_trans :
    ∀ {a b c : ProxyQueue}, List.Forall₂ JobEvolves a b → List.Forall₂ JobEvolves b c →
      List.Forall₂ JobEvolves a c := by
  intro a b c h1
  induction h1 generalizing c with
  | nil =>
    intro h2
    cases h2
    exact List.Forall₂.nil
  | cons hab h1' ih =>
    intro h2
    cases h2 with
    | cons hbc h2' => exact List.Forall₂.cons (jobEvolves_trans hab hbc) (ih h2')

lemma updateJobFn_videoId (id : String) (s : JobStatus) (p : ℤ) (err : Option String)
    (now : String) (j : ProxyJob) : (updateJobFn id s p err now j).videoId = j.videoId := by
  unfold updateJobFn
  by_cases hid : j.id = id
  · rw [if_pos hid]; cases s <;> rfl
  · rw [if_neg hid]

lemma updateJobFn_createdAt (id : String) (s : JobStatus) (p : ℤ) (err : Option String)
    (now : String) (j : ProxyJob) : (updateJobFn id s p err now j).createdAt = j.createdAt := by
  unfold updateJobFn
  by_cases hid : j.id = id
  · rw [if_pos hid]; cases s <;> rfl
  · rw [if_neg hid]

lemma runJob_evolves (env : QueueEnv) (videos : VideoStore) (q : ProxyQueue) (j : ProxyJob) :
    List.Forall₂ JobEvolves q (runJob env videos q j).2 := by
  obtain ⟨s, pr, err, hsor, heq⟩ := runJob_queue_char env videos q j
  rw [heq, List.map_map]
  rw [List.forall₂_map_right_iff]
  rw [List.forall₂_same]
  intro a _
  simp only [Function.comp_apply]
  refine ⟨?_, ?_, ?_, ?_⟩
  · rw [updateJobFn_id, updateJobFn_id]
  · rw [updateJobFn_videoId, updateJobFn_videoId]
  · rw [updateJobFn_createdAt, updateJobFn_createdAt]
  · by_cases hid : a.id = j.id
    · right
      have hid1 : (updateJobFn j.id JobStatus.processing 0 none env.now a).id = j.id := by
        rw [updateJobFn_id]; exact hid
      rw [updateJobFn_status_of_eq j.id s pr err env.now _ hid1]
      exact hsor
    · left
      rw [updateJobFn_of_ne _ _ _ _ _ _ (by rw [updateJobFn_id]; exact hid),
        updateJobFn_of_ne _ _ _ _ _ _ hid]

lemma processQueue_invariant (env : QueueEnv) :
    ∀ (n : ℕ) (videos : VideoStore) (q : ProxyQueue), queuedCount q ≤ n →
      List.Forall₂ JobEvolves q (processQueue env videos q).2 ∧
        ∀ x ∈ (processQueue env videos q).2, x.status ≠ .queued := by
  intro n
  induction n with
  | zero =>
    intro videos q hq
    rw [processQueue]
    rcases hj : getNextQueuedJob q with _ | j
    · simp only
      refine ⟨List.forall₂_same.mpr (fun a _ => jobEvolves_refl a), getNextQueuedJob_none hj⟩
    · exfalso
      obtain ⟨hmem, hqd⟩ := getNextQueuedJob_mem_queued hj
      have : 0 < queuedCount q := by
        have : j ∈ q.filter (fun x => x.status == .queued) :=
          List.mem_filter.mpr ⟨hmem, by simpa using hqd⟩
        have := List.length_pos.mpr (List.ne_nil_of_mem this)
        simpa [queuedCount] using this
      omega
  | succ n ih =>
    intro videos q hq
    rw [processQueue]
    rcases hj : getNextQueuedJob q with _ | j
    · simp only
      refine ⟨List.forall₂_same.mpr (fun a _ => jobEvolves_refl a), getNextQueuedJob_none hj⟩
    · simp only
      obtain ⟨hmem, hqd⟩ := getNextQueuedJob_mem_queued hj
      have hlt := queuedCount_runJob_lt env videos q j hmem hqd
      have hrec := ih (runJob env videos q j).1 (runJob env videos q j).2 (by omega)
      exact ⟨forall₂_jobEvolves_trans (runJob_evolves env videos q j) hrec.1, hrec.2⟩

lemma forall₂_get? {R : ProxyJob → ProxyJob → Prop} :
    ∀ {l1 l2 : ProxyQueue}, List.Forall₂ R l1 l2 →
      ∀ (i : ℕ) (a : ProxyJob), l1.get? i = some a →
        ∃ b, l2.get? i = some b ∧ R a b := by
  intro l1 l2 h
  induction h with
  | nil => intro i a ha; simp at ha
  | cons hR h' ih =>
    intro i a ha
    cases i with
    | zero =>
      simp only [List.get?] at ha
      cases ha
      exact ⟨_, rfl, hR⟩
    | succ i => exact ih i a ha

lemma updateJobFn_error_fields (id : String) (p : ℤ) (err : Option String) (now : String)
    (j : ProxyJob) (h : j.id = id) :
    updateJobFn id .error p err now j =
      { j with status := .error, progress := p, completedAt := some now, errMsg := err } := by
  unfold updateJobFn
  rw [if_pos h]

lemma runJob_error_detail (env : QueueEnv) (videos : VideoStore) (q : ProxyQueue)
    (j : ProxyJob) (v : VideoRow) (e : String)
    (hv : getVideoById videos j.videoId = some v) (hgen : env.gen j.id = .error e) :
    (runJob env videos q j).1 = videos ∧
      ∀ x ∈ (runJob env videos q j).2, x.id = j.id →
        x.status = .error ∧ x.errMsg = some e ∧ x.progress = 0 := by
  unfold runJob
  rw [hv, hgen]
  refine ⟨rfl, ?_⟩
  intro x hx hxid
  simp only [updateProxyJobStatus, List.map_map, List.mem_map] at hx
  obtain ⟨y, hy, hfy⟩ := hx
  by_cases hid : y.id = j.id
  · have hid1 : (updateJobFn j.id JobStatus.processing 0 none env.now y).id = j.id := by
      rw [updateJobFn_id]; exact hid
    subst hfy
    simp only [Function.comp_apply]
    rw [updateJobFn_error_fields j.id 0 (some e) env.now _ hid1]
    exact ⟨rfl, rfl, rfl⟩
  · exfalso
    subst hfy
    simp only [Function.comp_apply] at hxid
    rw [updateJobFn_of_ne _ _ _ _ _ _ (by rw [updateJobFn_id]; exact hid),
      updateJobFn_of_ne _ _ _ _ _ _ hid] at hxid
    exact hid hxid

/-- **C4.** The worker always claims the queued job with the earliest
creation time (strict FIFO over the queued state); when a claimed job's
generation fails it is marked `error` with the failure detail (and the
video table is untouched); and a failed job never blocks later-queued jobs:
for any outcome environment the loop drives *every* queued job to a
terminal state — the final queue pairs each original row with one carrying
the same id, video key and creation time, no row is left `queued`, and in
particular every originally queued row ends `complete` or `error`. -/
theorem proxy_queue_fifo_and_error_policy :
    (∀ (q : ProxyQueue) (j : ProxyJob), getNextQueuedJob q = some j →
      j ∈ q ∧ j.status = .queued ∧
        ∀ j' ∈ q, j'.status = .queued → j.createdAt ≤ j'.createdAt) ∧
    (∀ (env : QueueEnv) (videos : VideoStore) (q : ProxyQueue) (j : ProxyJob)
      (v : VideoRow) (e : String),
      getVideoById videos j.videoId = some v → env.gen j.id = .error e →
      (runJob env videos q j).1 = videos ∧
        ∀ x ∈ (runJob env videos q j).2, x.id = j.id →
          x.status = .error ∧ x.errMsg = some e) ∧
    (∀ (env : QueueEnv) (videos : VideoStore) (q : ProxyQueue),
      List.Forall₂ JobEvolves q (processQueue env videos q).2 ∧
        ∀ x ∈ (processQueue env videos q).2, x.status ≠ .queued) ∧
    (∀ (env : QueueEnv) (videos : VideoStore) (q : ProxyQueue) (i : ℕ) (a : ProxyJob),
      q.get? i = some a → a.status = .queued →
      ∃ b, (processQueue env videos q).2.get? i = some b ∧
        b.id = a.id ∧ b.createdAt = a.createdAt ∧
        (b.status = .complete ∨ b.status = .error)) := by
  have hinv : ∀ (env : QueueEnv) (videos : VideoStore) (q : ProxyQueue),
      List.Forall₂ JobEvolves q (processQueue env videos q).2 ∧
        ∀ x ∈ (processQueue env videos q).2, x.status ≠ .queued :=
    fun env videos q => processQueue_invariant env (queuedCount q) videos q le_rfl
  refine ⟨?_, ?_, hinv, ?_⟩
  · intro q j h
    obtain ⟨hmem, hq⟩ := getNextQueuedJob_mem_queued h
    exact ⟨hmem, hq, getNextQueuedJob_min h⟩
  · intro env videos q j v e hv hgen
    obtain ⟨h1, h2⟩ := runJob_error_detail env videos q j v e hv hgen
    exact ⟨h1, fun x hx hxid => ⟨(h2 x hx hxid).1, (h2 x hx hxid).2.1⟩⟩
  · intro env videos q i a hget hq
    obtain ⟨hall, hnq⟩ := hinv env videos q
    obtain ⟨b, hb, hR⟩ := forall₂_get? hall i a hget
    obtain ⟨hid, _, hca, hst⟩ := hR
    refine ⟨b, hb, hid, hca, ?_⟩
    rcases hst with h | h | h
    · exfalso
      exact hnq b (List.get?_mem hb) (by rw [h]; exact hq)
    · exact Or.inl h
    · exact Or.inr h

/-- Witness for `proxy_queue_fifo_and_error_policy`: with `jobB` listed
before the earlier-created `jobA`, the worker still claims `jobA` first;
`jobA`'s failing generation leaves the video table untouched; and the job
at index 1 of the final queue exists (the loop terminated with every job
settled). -/
theorem proxy_queue_fifo_and_error_policy_witness :
    getNextQueuedJob [jobB, jobA] = some jobA ∧
    jobA.createdAt ≤ jobB.createdAt ∧
    (runJob queueDemoEnv [qVideoA, qVideoB] [jobB, jobA] jobA).1 = [qVideoA, qVideoB] ∧
    ((processQueue queueDemoEnv [qVideoA, qVideoB] [jobB, jobA]).2.get? 1).isSome = true := by
  refine ⟨by decide, ?_, ?_, ?_⟩
  · exact (proxy_queue_fifo_and_error_policy.1 [jobB, jobA] jobA (by decide)).2.2 jobB
      (by decide) (by decide)
  · exact (proxy_queue_fifo_and_error_policy.2.1 queueDemoEnv [qVideoA, qVideoB]
      [jobB, jobA] jobA qVideoA "boom" (by decide) (by decide)).1
  · obtain ⟨b, hb, _⟩ := proxy_queue_fifo_and_error_policy.2.2.2 queueDemoEnv
      [qVideoA, qVideoB] [jobB, jobA] 1 jobA (by decide) (by decide)
    rw [hb]
    rfl

lemma applyStageEvent_thumbnailDone (st : ProgressState) (ev : String × ℚ) :
    (applyStageEvent st ev).thumbnailDone = true ↔
      st.thumbnailDone = true ∨ ev = ("thumbnail", (100:ℚ)) := by
  unfold applyStageEvent
  by_cases h1 : ev.1 = "thumbnail" ∧ ev.2 = 100
  · have hev : ev = ("thumbnail", (100:ℚ)) := Prod.ext h1.1 h1.2
    rw [if_pos h1]
    simp [hev]
  · have hev : ev ≠ ("thumbnail", (100:ℚ)) := by
      intro contra
      exact h1 (by rw [contra]; exact ⟨rfl, rfl⟩)
    rw [if_neg h1]
    by_cases h2 : ev.1 = "sprite" ∧ ev.2 = 100
    · rw [if_pos h2]; simp [hev]
    · rw [if_neg h2]
      by_cases h3 : ev.1 = "proxy"
      · rw [if_pos h3]; simp [hev]
      · rw [if_neg h3]; simp [hev]

lemma applyStageEvent_spriteDone (st : ProgressState) (ev : String × ℚ) :
    (applyStageEvent st ev).spriteDone = true ↔
      st.spriteDone = true ∨ ev = ("sprite", (100:ℚ)) := by
  unfold applyStageEvent
  by_cases h2 : ev.1 = "sprite" ∧ ev.2 = 100
  · have hev : ev = ("sprite", (100:ℚ)) := Prod.ext h2.1 h2.2
    have h1 : ¬ (ev.1 = "thumbnail" ∧ ev.2 = 100) := by
      intro contra
      rw [h2.1] at contra
      exact absurd contra.1 (by decide)
    rw [if_neg h1, if_pos h2]
    simp [hev]
  · have hev : ev ≠ ("sprite", (100:ℚ)) := by
      intro contra
      exact h2 (by rw [contra]; exact ⟨rfl, rfl⟩)
    by_cases h1 : ev.1 = "thumbnail" ∧ ev.2 = 100
    · rw [if_pos h1]; simp [hev]
    · rw [if_neg h1, if_neg h2]
      by_cases h3 : ev.1 = "proxy"
      · rw [if_pos h3]; simp [hev]
      · rw [if_neg h3]; simp [hev]

lemma applyStageEvent_proxyProgress (st : ProgressState) (ev : String × ℚ) :
    (applyStageEvent st ev).proxyProgress =
      if ev.1 = "proxy" then ev.2 else st.proxyProgress := by
  unfold applyStageEvent
  by_cases h1 : ev.1 = "thumbnail" ∧ ev.2 = 100
  · have : ¬ ev.1 = "proxy" := by rw [h1.1]; decide
    rw [if_pos h1, if_neg this]
  · rw [if_neg h1]
    by_cases h2 : ev.1 = "sprite" ∧ ev.2 = 100
    · have : ¬ ev.1 = "proxy" := by rw [h2.1]; decide
      rw [if_pos h2, if_neg this]
    · rw [if_neg h2]
      by_cases h3 : ev.1 = "proxy"
      · rw [if_pos h3, if_pos h3]
      · rw [if_neg h3, if_neg h3]

lemma proxyValues_cons (ev : String × ℚ) (evs : List (String × ℚ)) :
    proxyValues (ev :: evs) =
      if ev.1 = "proxy" then ev.2 :: proxyValues evs else proxyValues evs := by
  unfold proxyValues
  rw [List.filterMap_cons]
  by_cases h : ev.1 = "proxy"
  · rw [if_pos h, if_pos h]
  · rw [if_neg h, if_neg h]

lemma foldl_applyStageEvent_char :
    ∀ (events : List (String × ℚ)) (st : ProgressState),
      ((events.foldl applyStageEvent st).thumbnailDone = true ↔
        st.thumbnailDone = true ∨ ("thumbnail", (100:ℚ)) ∈ events) ∧
      ((events.foldl applyStageEvent st).spriteDone = true ↔
        st.spriteDone = true ∨ ("sprite", (100:ℚ)) ∈ events) ∧
      (events.foldl applyStageEvent st).proxyProgress =
        (proxyValues events).getLastD st.proxyProgress := by
  intro events
  induction events with
  | nil => intro st; simp [proxyValues]
  | cons ev evs ih =>
    intro st
    simp only [List.foldl_cons]
    obtain ⟨iht, ihs, ihp⟩ := ih (applyStageEvent st ev)
    refine ⟨?_, ?_, ?_⟩
    · rw [iht, applyStageEvent_thumbnailDone, List.mem_cons, or_assoc]
      exact or_congr_right (or_congr_left eq_comm)
    · rw [ihs, applyStageEvent_spriteDone, List.mem_cons, or_assoc]
      exact or_congr_right (or_congr_left eq_comm)
    · rw [ihp, applyStageEvent_proxyProgress, proxyValues_cons]
      by_cases h : ev.1 = "proxy"
      · rw [if_pos h, if_pos h, List.getLastD_cons]
      · rw [if_neg h, if_neg h]

lemma overallProgress_step_mono (st : ProgressState) (ev : String × ℚ)
    (hp : ev.1 = "proxy" → st.proxyProgress ≤ ev.2) :
    overallProgress st ≤ overallProgress (applyStageEvent st ev) := by
  obtain ⟨t, s, p⟩ := st
  simp only at hp
  unfold applyStageEvent
  by_cases h1 : ev.1 = "thumbnail" ∧ ev.2 = 100
  · rw [if_pos h1]
    cases t <;> cases s <;> simp [overallProgress] <;> linarith
  · rw [if_neg h1]
    by_cases h2 : ev.1 = "sprite" ∧ ev.2 = 100
    · rw [if_pos h2]
      cases t <;> cases s <;> simp [overallProgress] <;> linarith
    · rw [if_neg h2]
      by_cases h3 : ev.1 = "proxy"
      · rw [if_pos h3]
        have hple := hp h3
        have hmul : p * (8 / 10) ≤ ev.2 * (8 / 10) :=
          mul_le_mul_of_nonneg_right hple (by norm_num)
        cases t <;> cases s <;> simp [overallProgress] <;> linarith
      · rw [if_neg h3]

lemma jsRound_mono {x y : ℚ} (h : x ≤ y) : jsRound x ≤ jsRound y :=
  Int.floor_le_floor (by linarith)

lemma head?_scanl (f : ProgressState → (String × ℚ) → ProgressState) (b : ProgressState)
    (l : List (String × ℚ)) : (List.scanl f b l).head? = some b := by
  cases l <;> rfl

lemma chain_stored_aux :
    ∀ (events : List (String × ℚ)) (st : ProgressState),
      List.Chain' (· ≤ ·) (st.proxyProgress :: proxyValues events) →
      List.Chain' (· ≤ ·)
        ((List.scanl applyStageEvent st events).map (fun s => jsRound (overallProgress s))) := by
  intro events
  induction events with
  | nil =>
    intro st _
    simp [List.scanl_nil]
  | cons ev evs ih =>
    intro st hchain
    rw [List.scanl_cons]
    simp only [List.singleton_append, List.map_cons]
    have hp : ev.1 = "proxy" → st.proxyProgress ≤ ev.2 := by
      intro hpx
      rw [proxyValues_cons, if_pos hpx] at hchain
      exact (List.chain'_cons.mp hchain).1
    have hchain' : List.Chain' (· ≤ ·)
        ((applyStageEvent st ev).proxyProgress :: proxyValues evs) := by
      rw [applyStageEvent_proxyProgress]
      by_cases hpx : ev.1 = "proxy"
      · rw [if_pos hpx]
        rw [proxyValues_cons, if_pos hpx] at hchain
        exact (List.chain'_cons.mp hchain).2
      · rw [if_neg hpx]
        rw [proxyValues_cons, if_neg hpx] at hchain
        exact hchain
    have htail := ih (applyStageEvent st ev) hchain'
    rw [List.chain'_cons']
    refine ⟨?_, htail⟩
    intro y hy
    rw [List.head?_map, head?_scanl] at hy
    simp only [Option.map_some'] at hy
    cases hy
    exact jsRound_mono (overallProgress_step_mono st ev hp)

/-- **C5.** Stored queue progress: after any event sequence the trackers
hold exactly "a `('thumbnail', 100)` event was seen", "a `('sprite', 100)`
event was seen", and the last reported proxy percentage (0 before any), so
the stored value is `Math.round(5·[thumbnail] + 15·[sprite] +
0.8·proxyPercent)`; when the proxy percentages are non-decreasing (starting
from at least 0) the whole stored sequence is monotonically non-decreasing;
and the terminal `complete` write stores progress 100. -/
theorem queue_progress_weighted_monotone :
    (∀ events : List (String × ℚ),
      ((events.foldl applyStageEvent initProgress).thumbnailDone = true ↔
        ("thumbnail", (100:ℚ)) ∈ events) ∧
      ((events.foldl applyStageEvent initProgress).spriteDone = true ↔
        ("sprite", (100:ℚ)) ∈ events) ∧
      (events.foldl applyStageEvent initProgress).proxyProgress =
        (proxyValues events).getLastD 0 ∧
      jsRound (overallProgress (events.foldl applyStageEvent initProgress)) =
        jsRound ((if ("thumbnail", (100:ℚ)) ∈ events then 5 else 0) +
          (if ("sprite", (100:ℚ)) ∈ events then 15 else 0) +
          (proxyValues events).getLastD 0 * (8 / 10))) ∧
    (∀ events : List (String × ℚ),
      List.Chain' (· ≤ ·) ((0:ℚ) :: proxyValues events) →
      List.Chain' (· ≤ ·) (storedProgress events)) ∧
    (∀ (q : ProxyQueue) (id now : String),
      ∀ x ∈ updateProxyJobStatus q id .complete 100 none now, x.id = id →
        x.status = .complete ∧ x.progress = 100) := by
  refine ⟨?_, ?_, ?_⟩
  · intro events
    obtain ⟨iht, ihs, ihp⟩ := foldl_applyStageEvent_char events initProgress
    have hinit : initProgress.thumbnailDone = true ↔ False := by simp [initProgress]
    rw [hinit, false_or] at iht
    have hinit2 : initProgress.spriteDone = true ↔ False := by simp [initProgress]
    rw [hinit2, false_or] at ihs
    refine ⟨iht, ihs, ihp, ?_⟩
    congr 1
    unfold overallProgress
    rw [ihp]
    congr 1
    · congr 1
      · by_cases h : ("thumbnail", (100:ℚ)) ∈ events
        · rw [if_pos (iht.mpr h), if_pos h]
        · rw [if_neg (fun hb => h (iht.mp hb)), if_neg h]
      · by_cases h : ("sprite", (100:ℚ)) ∈ events
        · rw [if_pos (ihs.mpr h), if_pos h]
        · rw [if_neg (fun hb => h (ihs.mp hb)), if_neg h]
  · intro events hchain
    have h := chain_stored_aux events initProgress (by simpa [initProgress] using hchain)
    unfold storedProgress
    rw [List.map_drop, List.drop_one]
    exact h.tail
  · intro q id now x hx hxid
    simp only [updateProxyJobStatus, List.mem_map] at hx
    obtain ⟨y, hy, hfy⟩ := hx
    by_cases hid : y.id = id
    · subst hfy
      unfold updateJobFn
      rw [if_pos hid]
      exact ⟨rfl, rfl⟩
    · exfalso
      subst hfy
      rw [updateJobFn_of_ne _ _ _ _ _ _ hid] at hxid
      exact hid hxid

/-- Witness for `queue_progress_weighted_monotone`: the demo event sequence
stores 0, 5, 45, 60, 100, and that sequence is non-decreasing. -/
theorem queue_progress_weighted_monotone_witness :
    storedProgress demoEvents = [0, 5, 45, 60, 100] ∧
    List.Chain' (· ≤ ·) (storedProgress demoEvents) := by
  constructor
  · simp +decide [storedProgress, demoEvents, applyStageEvent, initProgress, overallProgress,
      jsRound, List.scanl]
    norm_num [Int.floor_eq_iff]
  · exact queue_progress_weighted_monotone.2.1 demoEvents
      (by simp +decide [proxyValues, demoEvents, List.chain'_cons, List.chain'_singleton])

lemma scanEntry_ne_nil : ∀ (e : FSEntry), ∀ q ∈ scanEntry e, q ≠ [] := by
  intro e
  cases e with
  | file name =>
    intro q hq
    simp only [scanEntry] at hq
    split at hq
    · exact absurd hq (List.not_mem_nil q)
    · split at hq
      · rw [List.mem_singleton] at hq
        subst hq
        simp
      · exact absurd hq (List.not_mem_nil q)
  | dir name entries =>
    intro q hq
    simp only [scanEntry] at hq
    split at hq
    · exact absurd hq (List.not_mem_nil q)
    · obtain ⟨r, _, rfl⟩ := List.mem_map.mp hq
      simp

lemma mem_scanEntries (p : List String) :
    ∀ entries : List FSEntry, p ∈ scanEntries entries ↔ ∃ e ∈ entries, p ∈ scanEntry e := by
  intro entries
  induction entries with
  | nil => simp [scanEntries]
  | cons e es ih =>
    simp only [scanEntries, List.mem_append, ih]
    constructor
    · rintro (h | ⟨e', he', hp⟩)
      · exact ⟨e, List.mem_cons_self e es, h⟩
      · exact ⟨e', List.mem_cons_of_mem e he', hp⟩
    · rintro ⟨e', he', hp⟩
      rcases List.mem_cons.mp he' with rfl | he''
      · exact Or.inl hp
      · exact Or.inr ⟨e', he'', hp⟩

lemma mem_scanEntries_iff_yieldable :
    ∀ (p : List String) (entries : List FSEntry),
      p ∈ scanEntries entries ↔ yieldable p entries = true := by
  intro p
  induction p with
  | nil =>
    intro entries
    rw [mem_scanEntries]
    simp only [yieldable, Bool.false_eq_true, iff_false, not_exists]
    intro e
    rintro ⟨he, hp⟩
    exact scanEntry_ne_nil e [] hp rfl
  | cons n rest ih =>
    intro entries
    cases rest with
    | nil =>
      rw [mem_scanEntries]
      simp only [yieldable, List.any_eq_true]
      constructor
      · rintro ⟨e, he, hp⟩
        cases e with
        | file m =>
          refine ⟨.file m, he, ?_⟩
          simp only [scanEntry] at hp
          split at hp
          · exact absurd hp (List.not_mem_nil _)
          · split at hp
            · rw [List.mem_singleton] at hp
              injection hp with h1 _
              subst h1
              simp_all
            · exact absurd hp (List.not_mem_nil _)
        | dir m ces =>
          exfalso
          simp only [scanEntry] at hp
          split at hp
          · exact absurd hp (List.not_mem_nil _)
          · obtain ⟨q, hq, heq⟩ := List.mem_map.mp hp
            injection heq with _ h2
            obtain ⟨e', _, hq'⟩ := (mem_scanEntries q ces).mp hq
            exact scanEntry_ne_nil e' q hq' h2
      · rintro ⟨e, he, hcond⟩
        cases e with
        | file m =>
          simp only [Bool.and_eq_true, beq_iff_eq, Bool.not_eq_true'] at hcond
          obtain ⟨⟨hm, hskip⟩, hvid⟩ := hcond
          refine ⟨.file m, he, ?_⟩
          simp [scanEntry, hm, hskip, hvid]
        | dir m ces => simp at hcond
    | cons r rest' =>
      rw [mem_scanEntries]
      simp only [yieldable, List.any_eq_true]
      constructor
      · rintro ⟨e, he, hp⟩
        cases e with
        | file m =>
          exfalso
          simp only [scanEntry] at hp
          split at hp
          · exact absurd hp (List.not_mem_nil _)
          · split at hp
            · rw [List.mem_singleton] at hp
              injection hp with _ h2
              exact absurd h2 (by simp)
            · exact absurd hp (List.not_mem_nil _)
        | dir m ces =>
          refine ⟨.dir m ces, he, ?_⟩
          simp only [scanEntry] at hp
          split at hp
          · exact absurd hp (List.not_mem_nil _)
          · obtain ⟨q, hq, heq⟩ := List.mem_map.mp hp
            injection heq with h1 h2
            subst h1
            subst h2
            have hy := (ih ces).mp hq
            simp_all
      · rintro ⟨e, he, hcond⟩
        cases e with
        | file m => simp at hcond
        | dir m ces =>
          simp only [Bool.and_eq_true, beq_iff_eq, Bool.not_eq_true'] at hcond
          obtain ⟨⟨hm, hskip⟩, hy⟩ := hcond
          refine ⟨.dir m ces, he, ?_⟩
          simp only [scanEntry, hm, hskip]
          simp only [Bool.false_eq_true, if_false]
          exact List.mem_map.mpr ⟨r :: rest', (ih ces).mpr hy, rfl⟩

lemma yieldable_props : ∀ (p : List String) (entries : List FSEntry),
    yieldable p entries = true →
    (∀ n ∈ p, shouldSkipPath n = false) ∧
    (∃ last, p.getLast? = some last ∧ isVideoFile last = true) := by
  intro p
  induction p with
  | nil => intro entries h; simp [yieldable] at h
  | cons n rest ih =>
    intro entries h
    cases rest with
    | nil =>
      simp only [yieldable, List.any_eq_true] at h
      obtain ⟨e, he, hcond⟩ := h
      cases e with
      | file m =>
        simp only [Bool.and_eq_true, beq_iff_eq, Bool.not_eq_true'] at hcond
        obtain ⟨⟨hm, hskip⟩, hvid⟩ := hcond
        refine ⟨?_, n, rfl, hvid⟩
        intro x hx
        rw [List.mem_singleton] at hx
        subst hx
        exact hskip
      | dir m ces => simp at hcond
    | cons r rest' =>
      simp only [yieldable, List.any_eq_true] at h
      obtain ⟨e, he, hcond⟩ := h
      cases e with
      | file m => simp at hcond
      | dir m ces =>
        simp only [Bool.and_eq_true, beq_iff_eq, Bool.not_eq_true'] at hcond
        obtain ⟨⟨hm, hskip⟩, hy⟩ := hcond
        obtain ⟨hcomp, hlast⟩ := ih ces hy
        refine ⟨?_, ?_⟩
        · intro x hx
          rcases List.mem_cons.mp hx with rfl | hx'
          · exact hskip
          · exact hcomp x hx'
        · obtain ⟨last, hl, hv⟩ := hlast
          exact ⟨last, by rw [List.getLast?_cons_cons]; exact hl, hv⟩

/-- **C8.** The walk yields exactly the paths that resolve, below the root,
through directories whose names are neither hidden (leading `'.'`) nor in
the deny-list, to a file whose name is likewise not skipped and whose
extension, compared case-insensitively, is in the allow-list; every such
file is yielded regardless of nesting depth, no yielded path has a hidden
or deny-listed component, and every yielded path ends in an allow-listed
file. -/
theorem scanDirectory_yields_exactly (p : List String) (entries : List FSEntry) :
    (p ∈ scanEntries entries ↔ yieldable p entries = true) ∧
    (p ∈ scanEntries entries → ∀ n ∈ p, shouldSkipPath n = false) ∧
    (p ∈ scanEntries entries → ∃ last, p.getLast? = some last ∧ isVideoFile last = true) := by
  have hiff := mem_scanEntries_iff_yieldable p entries
  refine ⟨hiff, ?_, ?_⟩
  · intro hmem
    exact (yieldable_props p entries (hiff.mp hmem)).1
  · intro hmem
    exact (yieldable_props p entries (hiff.mp hmem)).2

/-- Witness for `scanDirectory_yields_exactly` on `demoTree`: the nested
video is yielded, and paths through the deny-listed directory or to the
hidden file are not. -/
theorem scanDirectory_yields_exactly_witness :
    ["footage", "sub", "deep.mov"] ∈ scanEntries demoTree ∧
    ["footage", "node_modules", "inside.mp4"] ∉ scanEntries demoTree ∧
    ["footage", ".hidden.mp4"] ∉ scanEntries demoTree ∧
    ["notes.txt"] ∉ scanEntries demoTree := by
  refine ⟨?_, ?_, ?_, ?_⟩
  · exact (scanDirectory_yields_exactly ["footage", "sub", "deep.mov"] demoTree).1.mpr
      (by simp +decide [yieldable, demoTree, shouldSkipPath, isVideoFile, extname,
        extAfterLastDot, VIDEO_EXTENSIONS, startsWithDot, lowerAscii])
  · intro h
    have := (scanDirectory_yields_exactly
      ["footage", "node_modules", "inside.mp4"] demoTree).1.mp h
    simp +decide [yieldable, demoTree, shouldSkipPath, isVideoFile, extname,
      extAfterLastDot, VIDEO_EXTENSIONS, startsWithDot, lowerAscii] at this
  · intro h
    have := (scanDirectory_yields_exactly ["footage", ".hidden.mp4"] demoTree).1.mp h
    simp +decide [yieldable, demoTree, shouldSkipPath, isVideoFile, extname,
      extAfterLastDot, VIDEO_EXTENSIONS, startsWithDot, lowerAscii] at this
  · intro h
    have := (scanDirectory_yields_exactly ["notes.txt"] demoTree).1.mp h
    simp +decide [yieldable, demoTree, shouldSkipPath, isVideoFile, extname,
      extAfterLastDot, VIDEO_EXTENSIONS, startsWithDot, lowerAscii] at this

end VCB


